import Mathlib

/-!
# Verification of the florun flow model (`src/florun/flow.py`)

Shallow embedding of the graph/data model of the florun repository.
Python objects are modelled as functional records; object identity of an
`Interface` is modelled by its address `(node id, interface name)` (a `Ref`),
which is faithful for flows whose node ids and per-node interface names are
distinct (the `Flow` invariant documented in the source).  Python exceptions
are modelled by returning the mutated state together with an optional error
(`Flow × Option FErr`), since Python leaves mutations made before a `raise`
in place.
-/

namespace Florun

/-- The four interface kinds, `Interface.PARAMETER, INPUT, RESULT, OUTPUT`
(flow.py line 294). -/
inductive Kind where
  | parameter
  | input
  | result
  | output
  deriving DecidableEq, Repr

/-- The three concrete interface variants: `InterfaceValue`,
`InterfaceStream`, `InterfaceList` (flow.py lines 609, 636, 682). -/
inductive Variant where
  | value
  | stream
  | list
  deriving DecidableEq, Repr

/-- The address of an interface: id of its owning node plus its name.
Models Python object identity for interfaces (ids / names are unique in a
well-formed flow). -/
structure Ref where
  nodeId : String
  ifaceName : String
  deriving DecidableEq, Repr

/-- `Interface.isInput` (flow.py lines 320-321): Input and Parameter kinds
are input-like. -/
def isInputKind (k : Kind) : Bool :=
  decide (k = Kind.input) || decide (k = Kind.parameter)

/-- An `Interface` (flow.py line 290): name, kind (`type`), variant
(concrete subclass), `slot` flag, `value` (meaningful for the value
variant), and the symmetric `successors` / `predecessors` edge lists,
stored as addresses. -/
structure Iface where
  name : String
  kind : Kind
  variant : Variant
  slot : Bool
  value : Option String
  successors : List Ref
  predecessors : List Ref
  deriving DecidableEq, Repr

/-- A `Node` (flow.py line 409): id, fully qualified type name
(`fullname()`), class label (used by `randomId`), `incidence`,
`graphicalprops` (values are ints — editor positions; on re-reading a
document, `utils.atoi` maps their decimal string back to the int, so
they are embedded as `Int` directly), and the fixed interface list. -/
structure FNode where
  id : String
  typeName : String
  label : String
  incidence : Nat
  graphicalprops : List (String × Int)
  interfaces : List Iface
  deriving DecidableEq, Repr

/-- A `Flow` (flow.py line 40): `modified` dirty flag and the node
collection.  (`filename` plays no role in the verified claims.) -/
structure Flow where
  modified : Bool
  nodes : List FNode
  deriving DecidableEq, Repr

/-- Error taxonomy of flow.py (FlowError and subclasses), specialised to
the call sites the claims mention. -/
inductive FErr where
  /-- "Connector already exists from %s to %s" (flow.py line 80) -/
  | duplicateEdge
  /-- "A node with id '%s' already exists." (flow.py line 90) -/
  | duplicateId
  /-- `IncompatibilityError(interface1, interface2)` (flow.py line 29),
  carrying both interfaces (by address). -/
  | incompatibility (interface1 interface2 : Ref)
  /-- "Connector does not exist from %s to %s" (flow.py line 356) -/
  | edgeNotFound
  /-- "Node not found in flow." (flow.py line 123) / `NodeNotFoundError` -/
  | notFound
  /-- `FlowParsingError` — unknown node type on import (flow.py line 210) -/
  | parsing
  /-- "Interface with name '%s' not found on node %s." (flow.py line 528) -/
  | ifaceNotFound
  /-- "Should not load interface that is not connected." (flow.py line 364) -/
  | notConnected
  /-- A lookup that cannot fail in Python (the caller holds a live object
  reference) failed in the embedding; unreachable under well-formedness. -/
  | internal
  deriving DecidableEq, Repr

/-! ## Lookups -/

/-- `Flow.findNode` (flow.py lines 137-145), as an `Option`: first node
with the given id. -/
def Flow.findNode? (fl : Flow) (nid : String) : Option FNode :=
  fl.nodes.find? (fun n => decide (n.id = nid))

/-- `Node.findInterface` (flow.py lines 520-528), as an `Option`: first
interface with the given name. -/
def FNode.findInterface? (n : FNode) (nm : String) : Option Iface :=
  n.interfaces.find? (fun i => decide (i.name = nm))

/-- Dereference an interface address in a flow. -/
def Flow.ifaceAt? (fl : Flow) (r : Ref) : Option Iface :=
  (fl.findNode? r.nodeId).bind (fun n => n.findInterface? r.ifaceName)

/-! ## Updates

Python mutates the object returned by `findNode` / `findInterface`, i.e.
the *first* element with a matching id / name; the update functions below
replace exactly that first occurrence. -/

/-- Replace the first interface named `nm` by `g` applied to it. -/
def updateIfaceList (nm : String) (g : Iface → Iface) : List Iface → List Iface
  | [] => []
  | i :: rest =>
    if i.name = nm then g i :: rest else i :: updateIfaceList nm g rest

/-- Apply `g` to the first interface named `nm` of a node. -/
def FNode.updateIface (n : FNode) (nm : String) (g : Iface → Iface) : FNode :=
  { n with interfaces := updateIfaceList nm g n.interfaces }

/-- Replace the first node with id `nid` by `g` applied to it. -/
def updateNodeList (nid : String) (g : FNode → FNode) : List FNode → List FNode
  | [] => []
  | n :: rest =>
    if n.id = nid then g n :: rest else n :: updateNodeList nid g rest

/-- Apply `g` to the first node with id `nid` of a flow. -/
def Flow.updateNode (fl : Flow) (nid : String) (g : FNode → FNode) : Flow :=
  { fl with nodes := updateNodeList nid g fl.nodes }

/-- Apply `g` to the interface at address `r` of a flow. -/
def Flow.updateIface (fl : Flow) (r : Ref) (g : Iface → Iface) : Flow :=
  fl.updateNode r.nodeId (fun n => n.updateIface r.ifaceName g)

/-! ## Compatibility (flow.py lines 323-336, 626-629, 655-660, 691-694) -/

/-- The data of an interface that `isCompatible` inspects: its address
(object identity), kind and variant. -/
structure IfaceInfo where
  ref : Ref
  kind : Kind
  variant : Variant
  deriving DecidableEq, Repr

/-- `Interface.isCompatible` (flow.py lines 323-336), the generic check:
`self` (the prospective destination `dst`) and `other` (the prospective
source `src`) must be distinct objects on distinct nodes, `self` must not
be OUTPUT while `other` is not INPUT, and `self` must not be RESULT while
`other` is not PARAMETER. -/
def baseCompatible (dst src : IfaceInfo) : Bool :=
  decide (dst.ref ≠ src.ref) && decide (dst.ref.nodeId ≠ src.ref.nodeId)
  && (decide (dst.kind ≠ Kind.output) && decide (src.kind ≠ Kind.input))
  && (decide (dst.kind ≠ Kind.result) && decide (src.kind ≠ Kind.parameter))

/-- Variant dispatch of `isCompatible`: `InterfaceValue` (lines 626-629)
requires a value source, `InterfaceStream` (lines 655-660) accepts stream,
value or list sources, `InterfaceList` (lines 691-694) requires a list
source; each then defers to the generic check. -/
def isCompatible (dst src : IfaceInfo) : Bool :=
  match dst.variant with
  | Variant.value => decide (src.variant = Variant.value) && baseCompatible dst src
  | Variant.stream =>
      (decide (src.variant = Variant.stream) || decide (src.variant = Variant.value)
        || decide (src.variant = Variant.list))
      && baseCompatible dst src
  | Variant.list => decide (src.variant = Variant.list) && baseCompatible dst src

/-- The `IfaceInfo` of the interface at `r` (if it exists). -/
def Flow.infoAt? (fl : Flow) (r : Ref) : Option IfaceInfo :=
  (fl.ifaceAt? r).map (fun i => ⟨r, i.kind, i.variant⟩)

/-! ## Edge operations -/

/-- The two symmetric list appends of `Interface.addSuccessor`
(flow.py lines 344-345). -/
def Flow.appendEdge (fl : Flow) (s e : Ref) : Flow :=
  (fl.updateIface s (fun i => { i with successors := i.successors ++ [e] })).updateIface
    e (fun i => { i with predecessors := i.predecessors ++ [s] })

/-- `Interface.addSuccessor` (flow.py lines 338-346): compatibility check
`interface.isCompatible(self)` — destination checked against source — then
the symmetric append.  `IncompatibilityError(interface, self)` carries the
destination first. -/
def Flow.addSuccessor (fl : Flow) (s e : Ref) : Flow × Option FErr :=
  match fl.infoAt? s, fl.infoAt? e with
  | some si, some ei =>
    if isCompatible ei si then (fl.appendEdge s e, none)
    else (fl, some (FErr.incompatibility e s))
  | _, _ => (fl, some FErr.internal)

/-- `Flow.addConnector` (flow.py lines 73-81): mark dirty, reject an edge
that exists in either direction, then `start.addSuccessor(end)`. -/
def Flow.addConnector (fl : Flow) (s e : Ref) : Flow × Option FErr :=
  let fl' : Flow := { fl with modified := true }
  match fl'.ifaceAt? s, fl'.ifaceAt? e with
  | some si, some ei =>
    if e ∈ si.successors ∨ s ∈ ei.successors then (fl', some FErr.duplicateEdge)
    else fl'.addSuccessor s e
  | _, _ => (fl', some FErr.internal)

/-- `Interface.removeSuccessor` (flow.py lines 348-356):
`successors.remove` then `predecessors.remove`; a `ValueError` from either
is turned into a `FlowError`, with any mutation already made kept. -/
def Flow.removeSuccessor (fl : Flow) (s e : Ref) : Flow × Option FErr :=
  match fl.ifaceAt? s with
  | none => (fl, some FErr.internal)
  | some si =>
    if e ∈ si.successors then
      let fl1 := fl.updateIface s (fun i => { i with successors := i.successors.erase e })
      match fl1.ifaceAt? e with
      | none => (fl1, some FErr.internal)
      | some ei =>
        if s ∈ ei.predecessors then
          (fl1.updateIface e (fun i => { i with predecessors := i.predecessors.erase s }), none)
        else (fl1, some FErr.edgeNotFound)
    else (fl, some FErr.edgeNotFound)

/-- `Flow.removeConnector` (flow.py lines 99-105): mark dirty, then
`start.removeSuccessor(end)`. -/
def Flow.removeConnector (fl : Flow) (s e : Ref) : Flow × Option FErr :=
  Flow.removeSuccessor { fl with modified := true } s e

/-! ## Decimal representation facts

`Flow.randomId` builds candidate ids with Python's `"%s-%s" % (label, i)`,
i.e. `label ++ "-" ++ Nat.repr i`.  Its termination and freshness rest on
the injectivity of `Nat.repr`, proved here via `Nat.digits`. -/

theorem digitChar_injOn :
    ∀ a < 10, ∀ b < 10, Nat.digitChar a = Nat.digitChar b → a = b := by decide

theorem map_digitChar_inj :
    ∀ l1 l2 : List Nat, (∀ x ∈ l1, x < 10) → (∀ x ∈ l2, x < 10) →
      l1.map Nat.digitChar = l2.map Nat.digitChar → l1 = l2 := by
  intro l1
  induction l1 with
  | nil =>
    intro l2 _ _ h
    cases l2 with
    | nil => rfl
    | cons b t => simp at h
  | cons a t ih =>
    intro l2 h1 h2 h
    cases l2 with
    | nil => simp at h
    | cons b t2 =>
      simp only [List.map_cons, List.cons.injEq] at h
      have hab : a = b := digitChar_injOn a (h1 a (by simp)) b (h2 b (by simp)) h.1
      have ht : t = t2 :=
        ih t2 (fun x hx => h1 x (by simp [hx])) (fun x hx => h2 x (by simp [hx])) h.2
      rw [hab, ht]

theorem toDigitsCore_succ (b f n : Nat) (ds : List Char) :
    Nat.toDigitsCore b (f + 1) n ds =
      if n / b = 0 then Nat.digitChar (n % b) :: ds
      else Nat.toDigitsCore b f (n / b) (Nat.digitChar (n % b) :: ds) := rfl

theorem toDigitsCore_eq_digits :
    ∀ (f n : Nat) (ds : List Char), 0 < n → n < 10 ^ f →
      Nat.toDigitsCore 10 f n ds = ((Nat.digits 10 n).reverse.map Nat.digitChar) ++ ds := by
  intro f
  induction f with
  | zero => intro n ds hn hlt; simp at hlt; omega
  | succ f ih =>
    intro n ds hn hlt
    by_cases h0 : n / 10 = 0
    · have hlt10 : n < 10 := (Nat.div_eq_zero_iff (by norm_num)).1 h0
      rw [toDigitsCore_succ, if_pos h0, Nat.digits_def' (by norm_num : (1:ℕ) < 10) hn, h0]
      simp [Nat.mod_eq_of_lt hlt10]
    · have hdiv : n / 10 < 10 ^ f := by
        rw [Nat.div_lt_iff_lt_mul (by norm_num)]
        calc n < 10 ^ (f + 1) := hlt
          _ = 10 ^ f * 10 := by ring
      rw [toDigitsCore_succ, if_neg h0,
        ih (n / 10) _ (Nat.pos_of_ne_zero h0) hdiv,
        Nat.digits_def' (by norm_num : (1:ℕ) < 10) hn]
      simp

theorem asString_inj : ∀ l1 l2 : List Char, l1.asString = l2.asString → l1 = l2 := by
  intro l1 l2 h
  have h2 := congrArg String.data h
  simpa [List.asString] using h2

theorem repr_eq_digits (n : Nat) (hn : 0 < n) :
    Nat.repr n = ((Nat.digits 10 n).reverse.map Nat.digitChar).asString := by
  have h1 : n < 2 ^ n := Nat.lt_two_pow n
  have h2 : (2:ℕ) ^ n ≤ 10 ^ n := Nat.pow_le_pow_left (by norm_num) n
  have h3 : (10:ℕ) ^ n ≤ 10 ^ (n + 1) := Nat.pow_le_pow_right (by norm_num) (Nat.le_succ n)
  have hpow : n < 10 ^ (n + 1) := lt_of_lt_of_le h1 (le_trans h2 h3)
  show (Nat.toDigitsCore 10 (n + 1) n []).asString = _
  rw [toDigitsCore_eq_digits (n + 1) n [] hn hpow]
  simp

theorem reprNat_inj : ∀ m n : Nat, Nat.repr m = Nat.repr n → m = n := by
  have key : ∀ m n : Nat, 0 < m → 0 < n → Nat.repr m = Nat.repr n → m = n := by
    intro m n hm hn h
    rw [repr_eq_digits m hm, repr_eq_digits n hn] at h
    have hlist := asString_inj _ _ h
    have hdig : (Nat.digits 10 m).reverse = (Nat.digits 10 n).reverse :=
      map_digitChar_inj _ _
        (fun x hx => Nat.digits_lt_base (by norm_num) (List.mem_reverse.1 hx))
        (fun x hx => Nat.digits_lt_base (by norm_num) (List.mem_reverse.1 hx)) hlist
    have hdig2 : Nat.digits 10 m = Nat.digits 10 n := by
      have := congrArg List.reverse hdig
      simpa using this
    calc m = Nat.ofDigits 10 (Nat.digits 10 m) := (Nat.ofDigits_digits 10 m).symm
      _ = Nat.ofDigits 10 (Nat.digits 10 n) := by rw [hdig2]
      _ = n := Nat.ofDigits_digits 10 n
  have zero_ne : ∀ n : Nat, 0 < n → Nat.repr 0 ≠ Nat.repr n := by
    intro n hn h
    rw [repr_eq_digits n hn] at h
    have hlist := asString_inj ['0'] _ (by exact h)
    have : [0] = (Nat.digits 10 n).reverse :=
      map_digitChar_inj [0] _ (by simp)
        (fun x hx => Nat.digits_lt_base (by norm_num) (List.mem_reverse.1 hx)) (by simpa using hlist)
    have hdig : Nat.digits 10 n = [0] := by
      have := congrArg List.reverse this
      simpa using this.symm
    have : n = 0 := by
      have h0 := Nat.ofDigits_digits 10 n
      rw [hdig] at h0
      simpa using h0.symm
    omega
  intro m n h
  rcases Nat.eq_zero_or_pos m with hm | hm <;> rcases Nat.eq_zero_or_pos n with hn | hn
  · omega
  · subst hm; exact absurd h (zero_ne n hn)
  · subst hn; exact absurd h.symm (zero_ne m hm)
  · exact key m n hm hn h

/-! ## `randomId` (flow.py lines 125-135) -/

/-- One candidate id of `Flow.randomId`: the bare label for the first
attempt (`nodeid = "%s" % node.label`), then `label-k` for k = 2, 3, ... -/
def candidateId (label : String) (k : Nat) : String :=
  if k ≤ 1 then label else label ++ "-" ++ Nat.repr k

theorem candidateId_inj (label : String) :
    ∀ j k, 2 ≤ j → 2 ≤ k → candidateId label j = candidateId label k → j = k := by
  intro j k hj hk h
  simp only [candidateId, if_neg (by omega : ¬ j ≤ 1), if_neg (by omega : ¬ k ≤ 1)] at h
  have hdata := congrArg String.data h
  simp only [String.data_append, List.append_assoc] at hdata
  have h1 := List.append_cancel_left hdata
  have h2 := List.append_cancel_left h1
  exact reprNat_inj j k (String.ext h2)

theorem existsFreshCandidate (ids : List String) (label : String) :
    ∃ i, candidateId label (i + 1) ∉ ids := by
  by_contra hall
  push_neg at hall
  have hmap : ∀ j ∈ Finset.range (ids.toFinset.card + 1),
      candidateId label (j + 2) ∈ ids.toFinset := by
    intro j _
    exact List.mem_toFinset.2 (hall (j + 1))
  have hinj : Set.InjOn (fun j => candidateId label (j + 2))
      ↑(Finset.range (ids.toFinset.card + 1)) := by
    intro a _ b _ hab
    have := candidateId_inj label (a + 2) (b + 2) (by omega) (by omega) hab
    omega
  have hcard := Finset.card_le_card_of_injOn _ hmap hinj
  simp [Finset.card_range] at hcard

/-- `Flow.randomId` (flow.py lines 125-135): the first candidate id — in
the order label, label-2, label-3, ... — not among the existing node ids.
The Python `while` loop terminates because the candidates are pairwise
distinct and the id list is finite; `Nat.find` picks the same least fresh
index. -/
def randomId (ids : List String) (label : String) : String :=
  candidateId label (Nat.find (existsFreshCandidate ids label) + 1)

theorem randomId_fresh (ids : List String) (label : String) : randomId ids label ∉ ids :=
  Nat.find_spec (existsFreshCandidate ids label)

theorem randomId_congr (ids ids' : List String) (label : String)
    (h : ∀ x, x ∈ ids ↔ x ∈ ids') : randomId ids label = randomId ids' label := by
  unfold randomId
  have hle : Nat.find (existsFreshCandidate ids label)
      ≤ Nat.find (existsFreshCandidate ids' label) :=
    Nat.find_mono (fun n hn hmem => hn ((h _).1 hmem))
  have hge : Nat.find (existsFreshCandidate ids' label)
      ≤ Nat.find (existsFreshCandidate ids label) :=
    Nat.find_mono (fun n hn hmem => hn ((h _).2 hmem))
  rw [le_antisymm hle hge]

/-! ## `addNode` (flow.py lines 83-97) -/

/-- The node ids of a flow, in collection order (`[n.id for n in
self.nodes]`, flow.py line 132). -/
def Flow.nodeIds (fl : Flow) : List String :=
  fl.nodes.map FNode.id

/-- `Flow.addNode` (flow.py lines 83-97).  The `try` block runs first: if
`findNode(node.id)` succeeds and the id is truthy (nonempty), a
`FlowError` is raised *before* the flow is marked dirty; if it succeeds
and the id is empty, a fresh id is generated.  If `findNode` raises
`NodeNotFoundError` the id is left untouched — even when it is empty.
Then the flow is marked dirty, `node.flow = self` is set (a back
reference, not modelled) and the node is appended. -/
def Flow.addNode (fl : Flow) (n : FNode) : Flow × Option FErr :=
  match fl.findNode? n.id with
  | some _ =>
    if n.id ≠ "" then (fl, some FErr.duplicateId)
    else
      let n' := { n with id := randomId fl.nodeIds n.label }
      ({ modified := true, nodes := fl.nodes ++ [n'] }, none)
  | none => ({ modified := true, nodes := fl.nodes ++ [n] }, none)

/-! ## Node-level successors / predecessors (flow.py lines 496-518) -/

/-- Append if absent — the `if x not in acc: acc.append(x)` dedup used by
`Node.successors` / `Node.predecessors`. -/
def dedupAppend (acc : List String) (x : String) : List String :=
  if x ∈ acc then acc else acc ++ [x]

/-- `Node.successors` (flow.py lines 496-506), as node ids: every
successor interface's node, first occurrence order, deduplicated. -/
def FNode.successorNodeIds (n : FNode) : List String :=
  n.interfaces.foldl
    (fun acc i => i.successors.foldl (fun acc r => dedupAppend acc r.nodeId) acc) []

/-- `Node.predecessors` (flow.py lines 508-518), as node ids. -/
def FNode.predecessorNodeIds (n : FNode) : List String :=
  n.interfaces.foldl
    (fun acc i => i.predecessors.foldl (fun acc r => dedupAppend acc r.nodeId) acc) []

/-- `Flow.startNodes` (flow.py lines 61-63): the nodes with no
predecessor node, in collection order (as ids). -/
def Flow.startNodeIds (fl : Flow) : List String :=
  (fl.nodes.filter (fun n => n.predecessorNodeIds.isEmpty)).map FNode.id

/-! ## Incidence (flow.py lines 175-188) -/

/-- Set the `incidence` field of the node with the given id. -/
def Flow.setIncidenceOf (fl : Flow) (nid : String) (level : Nat) : Flow :=
  fl.updateNode nid (fun n => { n with incidence := level })

/-- The successor node ids of the node with the given id (empty when the
id does not resolve). -/
def Flow.nodeSuccessorIds (fl : Flow) (nid : String) : List String :=
  match fl.findNode? nid with
  | some n => n.successorNodeIds
  | none => []

/-- The inner `setincidence(nodelist, level)` of
`Flow.sortNodesByIncidence` (flow.py lines 181-185):

    for n in nodelist:
        n.incidence = level
        if len(n.successors) > 0:
            setincidence(n.successors, level + 1)

The assignment is an unconditional overwrite (no max with the previous
value).  The Python recursion has no cycle guard and its call tree is the
set of paths from the start nodes, so the embedding carries a fuel
parameter; with sufficient fuel it computes exactly what the Python
recursion computes when that recursion terminates. -/
def setincidence (fuel : Nat) (fl : Flow) (nodelist : List String) (level : Nat) : Flow :=
  match fuel with
  | 0 => fl
  | fuel + 1 =>
    match nodelist with
    | [] => fl
    | nid :: rest =>
      let fl1 := fl.setIncidenceOf nid level
      let succs := fl1.nodeSuccessorIds nid
      let fl2 := if succs.length > 0 then setincidence fuel fl1 succs (level + 1) else fl1
      setincidence fuel fl2 rest level

/-- Lexicographic comparison of code-point lists — Python's `str`
ordering used as the `key=lambda x: x.id` sort order.  (Lean's own
`String.ltb` is defined by well-founded recursion on iterators and does
not reduce in the kernel, so the character data is compared directly.) -/
def charListLe : List Char → List Char → Bool
  | [], _ => true
  | _ :: _, [] => false
  | a :: as, b :: bs =>
    if a.toNat < b.toNat then true
    else if b.toNat < a.toNat then false
    else charListLe as bs

/-- Python string `<=`: lexicographic by code point. -/
def strLe (a b : String) : Bool := charListLe a.data b.data

/-- `Flow.sortNodesByIncidence` (flow.py lines 175-188): assign incidence
levels starting from the start nodes at level 1, then sort by id and
(stably) by incidence — Python's two stable `sort` calls give ascending
incidence with ties broken by id.  Python's `list.sort` is stable; a
stable sort for a total preorder is unique, so the stable
`List.insertionSort` computes the same result. -/
def Flow.sortNodesByIncidence (fl : Flow) (fuel : Nat) : Flow :=
  let fl1 := setincidence fuel fl fl.startNodeIds 1
  { fl1 with
    nodes := List.insertionSort (fun a b => a.incidence ≤ b.incidence)
      (List.insertionSort (fun a b => strLe a.id b.id = true) fl1.nodes) }

/-! ## `removeNode` (flow.py lines 107-123) -/

/-- The successor list of the interface at `r` (empty when the address
does not resolve). -/
def Flow.succListAt (fl : Flow) (r : Ref) : List Ref :=
  match fl.ifaceAt? r with
  | some i => i.successors
  | none => []

/-- The predecessor list of the interface at `r`. -/
def Flow.predListAt (fl : Flow) (r : Ref) : List Ref :=
  match fl.ifaceAt? r with
  | some i => i.predecessors
  | none => []

/-- `for relative in interface.successors: self.removeConnector(interface,
relative)` (flow.py lines 114-115).  Python's `for` iterates by index
while `removeConnector` removes the current element from the very list
being iterated, so after removing the element at index `i` the iterator
moves past the element that slid into position `i`: every other edge is
skipped.  The embedding reproduces that index-based semantics; `fuel`
bounds the loop (the initial length suffices since the index grows each
step). -/
def removeSuccLoop (r : Ref) : Nat → Nat → Flow → Flow × Option FErr
  | _, 0, fl => (fl, none)
  | i, fuel + 1, fl =>
    match (fl.succListAt r)[i]? with
    | some rel =>
      match fl.removeConnector r rel with
      | (fl', none) => removeSuccLoop r (i + 1) fuel fl'
      | (fl', some e) => (fl', some e)
    | none => (fl, none)

/-- `for relative in interface.predecessors: self.removeConnector(relative,
interface)` (flow.py lines 116-117), with the same index-based skipping
semantics. -/
def removePredLoop (r : Ref) : Nat → Nat → Flow → Flow × Option FErr
  | _, 0, fl => (fl, none)
  | i, fuel + 1, fl =>
    match (fl.predListAt r)[i]? with
    | some rel =>
      match fl.removeConnector rel r with
      | (fl', none) => removePredLoop r (i + 1) fuel fl'
      | (fl', some e) => (fl', some e)
    | none => (fl, none)

/-- Both edge-removal loops of `removeNode` for one interface. -/
def removeIfaceEdges (fl : Flow) (r : Ref) : Flow × Option FErr :=
  match removeSuccLoop r 0 ((fl.succListAt r).length + 1) fl with
  | (fl1, none) => removePredLoop r 0 ((fl1.predListAt r).length + 1) fl1
  | e => e

/-- `Flow.removeNode` (flow.py lines 107-123): mark dirty, run the two
edge-removal loops for every interface of the node, drop the ownership
back reference (`node.flow = None`, not modelled), then remove the node
from the collection, raising "Node not found in flow." when it is not a
member.  The node is addressed by its id (Python removes by object
identity; ids are unique in a well-formed flow). -/
def Flow.removeNode (fl : Flow) (n : FNode) : Flow × Option FErr :=
  let fl0 : Flow := { fl with modified := true }
  let step := n.interfaces.foldl
    (fun (acc : Flow × Option FErr) i =>
      match acc with
      | (f, none) => removeIfaceEdges f ⟨n.id, i.name⟩
      | e => e) (fl0, none)
  match step with
  | (fl1, none) =>
    if fl1.nodes.any (fun m => decide (m.id = n.id)) then
      ({ fl1 with nodes := fl1.nodes.eraseP (fun m => decide (m.id = n.id)) }, none)
    else (fl1, some FErr.notFound)
  | e => e

/-! ## Lookup / update lemmas -/

theorem find?_updateNodeList_same (nid : String) (g : FNode → FNode)
    (hg : ∀ n, (g n).id = n.id) :
    ∀ l : List FNode,
      (updateNodeList nid g l).find? (fun n => decide (n.id = nid)) =
        (l.find? (fun n => decide (n.id = nid))).map g := by
  intro l
  induction l with
  | nil => simp [updateNodeList]
  | cons n rest ih =>
    by_cases h1 : n.id = nid
    · simp [updateNodeList, h1, List.find?_cons, hg n]
    · simp [updateNodeList, h1, List.find?_cons, ih]

theorem find?_updateNodeList_other (nid nid' : String) (g : FNode → FNode)
    (hg : ∀ n, (g n).id = n.id) (hne : nid' ≠ nid) :
    ∀ l : List FNode,
      (updateNodeList nid g l).find? (fun n => decide (n.id = nid')) =
        l.find? (fun n => decide (n.id = nid')) := by
  intro l
  induction l with
  | nil => simp [updateNodeList]
  | cons n rest ih =>
    by_cases h1 : n.id = nid
    · have hgne : (g n).id ≠ nid' := by rw [hg n, h1]; exact fun hc => hne hc.symm
      have h2 : n.id ≠ nid' := by rw [h1]; exact fun hc => hne hc.symm
      simp [updateNodeList, h1, List.find?_cons, hgne, h2, hne, Ne.symm hne]
    · by_cases h3 : n.id = nid'
      · simp [updateNodeList, h1, List.find?_cons, h3, hne, Ne.symm hne]
      · simp [updateNodeList, h1, List.find?_cons, h3, ih, hne, Ne.symm hne]

theorem find?_updateIfaceList_same (nm : String) (g : Iface → Iface)
    (hg : ∀ i, (g i).name = i.name) :
    ∀ l : List Iface,
      (updateIfaceList nm g l).find? (fun i => decide (i.name = nm)) =
        (l.find? (fun i => decide (i.name = nm))).map g := by
  intro l
  induction l with
  | nil => simp [updateIfaceList]
  | cons i rest ih =>
    by_cases h1 : i.name = nm
    · simp [updateIfaceList, h1, List.find?_cons, hg i]
    · simp [updateIfaceList, h1, List.find?_cons, ih]

theorem find?_updateIfaceList_other (nm nm' : String) (g : Iface → Iface)
    (hg : ∀ i, (g i).name = i.name) (hne : nm' ≠ nm) :
    ∀ l : List Iface,
      (updateIfaceList nm g l).find? (fun i => decide (i.name = nm')) =
        l.find? (fun i => decide (i.name = nm')) := by
  intro l
  induction l with
  | nil => simp [updateIfaceList]
  | cons i rest ih =>
    by_cases h1 : i.name = nm
    · have hgne : (g i).name ≠ nm' := by rw [hg i, h1]; exact fun hc => hne hc.symm
      have h2 : i.name ≠ nm' := by rw [h1]; exact fun hc => hne hc.symm
      simp [updateIfaceList, h1, List.find?_cons, hgne, h2, hne, Ne.symm hne]
    · by_cases h3 : i.name = nm'
      · simp [updateIfaceList, h1, List.find?_cons, h3, hne, Ne.symm hne]
      · simp [updateIfaceList, h1, List.find?_cons, h3, ih, hne, Ne.symm hne]

theorem findNode?_updateNode_same (fl : Flow) (nid : String) (g : FNode → FNode)
    (hg : ∀ n, (g n).id = n.id) :
    (fl.updateNode nid g).findNode? nid = (fl.findNode? nid).map g :=
  find?_updateNodeList_same nid g hg fl.nodes

theorem findNode?_updateNode_other (fl : Flow) (nid nid' : String) (g : FNode → FNode)
    (hg : ∀ n, (g n).id = n.id) (hne : nid' ≠ nid) :
    (fl.updateNode nid g).findNode? nid' = fl.findNode? nid' :=
  find?_updateNodeList_other nid nid' g hg hne fl.nodes

theorem findInterface?_updateIface_same (n : FNode) (nm : String) (g : Iface → Iface)
    (hg : ∀ i, (g i).name = i.name) :
    (n.updateIface nm g).findInterface? nm = (n.findInterface? nm).map g :=
  find?_updateIfaceList_same nm g hg n.interfaces

theorem findInterface?_updateIface_other (n : FNode) (nm nm' : String) (g : Iface → Iface)
    (hg : ∀ i, (g i).name = i.name) (hne : nm' ≠ nm) :
    (n.updateIface nm g).findInterface? nm' = n.findInterface? nm' :=
  find?_updateIfaceList_other nm nm' g hg hne n.interfaces

theorem ifaceAt?_updateIface_same (fl : Flow) (r : Ref) (g : Iface → Iface)
    (hg : ∀ i, (g i).name = i.name) :
    (fl.updateIface r g).ifaceAt? r = (fl.ifaceAt? r).map g := by
  unfold Flow.ifaceAt? Flow.updateIface
  rw [findNode?_updateNode_same fl r.nodeId (fun n => n.updateIface r.ifaceName g) (fun n => rfl)]
  cases h : fl.findNode? r.nodeId with
  | none => rfl
  | some n =>
    simp only [Option.map_some', Option.some_bind]
    exact findInterface?_updateIface_same n r.ifaceName g hg

theorem ifaceAt?_updateIface_other (fl : Flow) (r r' : Ref) (g : Iface → Iface)
    (hg : ∀ i, (g i).name = i.name) (hne : r' ≠ r) :
    (fl.updateIface r g).ifaceAt? r' = fl.ifaceAt? r' := by
  unfold Flow.ifaceAt? Flow.updateIface
  by_cases hn : r'.nodeId = r.nodeId
  · have hm : r'.ifaceName ≠ r.ifaceName := by
      intro hmeq
      apply hne
      cases r; cases r'
      simp_all
    rw [hn, findNode?_updateNode_same fl r.nodeId (fun n => n.updateIface r.ifaceName g) (fun n => rfl)]
    cases h : fl.findNode? r.nodeId with
    | none => rfl
    | some n =>
      simp only [Option.map_some', Option.some_bind]
      exact findInterface?_updateIface_other n r.ifaceName r'.ifaceName g hg hm
  · rw [findNode?_updateNode_other fl r.nodeId r'.nodeId (fun n => n.updateIface r.ifaceName g) (fun n => rfl) hn]

theorem ifaceAt?_set_modified (fl : Flow) (b : Bool) (r : Ref) :
    Flow.ifaceAt? { fl with modified := b } r = fl.ifaceAt? r := rfl

theorem modified_updateIface (fl : Flow) (r : Ref) (g : Iface → Iface) :
    (fl.updateIface r g).modified = fl.modified := rfl

theorem modified_appendEdge (fl : Flow) (s e : Ref) :
    (fl.appendEdge s e).modified = fl.modified := rfl

theorem modified_addSuccessor (fl : Flow) (s e : Ref) :
    (fl.addSuccessor s e).1.modified = fl.modified := by
  unfold Flow.addSuccessor
  cases h1 : fl.infoAt? s <;> cases h2 : fl.infoAt? e <;> simp
  split <;> simp [modified_appendEdge]

theorem modified_removeSuccessor (fl : Flow) (s e : Ref) :
    (fl.removeSuccessor s e).1.modified = fl.modified := by
  unfold Flow.removeSuccessor
  cases h1 : fl.ifaceAt? s with
  | none => rfl
  | some si =>
    simp only
    split
    · cases h2 : (fl.updateIface s fun i => { i with successors := i.successors.erase e }).ifaceAt? e with
      | none => simp [h2, modified_updateIface]
      | some ei =>
        simp only [h2]
        split <;> simp [modified_updateIface]
    · rfl

theorem modified_addConnector (fl : Flow) (s e : Ref) :
    (fl.addConnector s e).1.modified = true := by
  unfold Flow.addConnector
  cases h1 : Flow.ifaceAt? { fl with modified := true } s with
  | none => simp [h1]
  | some si =>
    cases h2 : Flow.ifaceAt? { fl with modified := true } e with
    | none => simp [h1, h2]
    | some ei =>
      simp only [h1, h2]
      split
      · rfl
      · rw [modified_addSuccessor]

theorem modified_removeConnector (fl : Flow) (s e : Ref) :
    (fl.removeConnector s e).1.modified = true := by
  unfold Flow.removeConnector
  rw [modified_removeSuccessor]

theorem modified_removeSuccLoop (r : Ref) :
    ∀ (fuel i : Nat) (fl : Flow), fl.modified = true →
      (removeSuccLoop r i fuel fl).1.modified = true := by
  intro fuel
  induction fuel with
  | zero => intro i fl h; simpa [removeSuccLoop] using h
  | succ fuel ih =>
    intro i fl h
    rw [removeSuccLoop]
    cases hget : (fl.succListAt r)[i]? with
    | none => exact h
    | some rel =>
      simp only
      have hmod := modified_removeConnector fl r rel
      cases hrc : fl.removeConnector r rel with
      | mk fl' err =>
        rw [hrc] at hmod
        cases err with
        | none => exact ih (i + 1) fl' hmod
        | some e => exact hmod

theorem modified_removePredLoop (r : Ref) :
    ∀ (fuel i : Nat) (fl : Flow), fl.modified = true →
      (removePredLoop r i fuel fl).1.modified = true := by
  intro fuel
  induction fuel with
  | zero => intro i fl h; simpa [removePredLoop] using h
  | succ fuel ih =>
    intro i fl h
    rw [removePredLoop]
    cases hget : (fl.predListAt r)[i]? with
    | none => exact h
    | some rel =>
      simp only
      have hmod := modified_removeConnector fl rel r
      cases hrc : fl.removeConnector rel r with
      | mk fl' err =>
        rw [hrc] at hmod
        cases err with
        | none => exact ih (i + 1) fl' hmod
        | some e => exact hmod

theorem modified_removeIfaceEdges (fl : Flow) (r : Ref) (h : fl.modified = true) :
    (removeIfaceEdges fl r).1.modified = true := by
  unfold removeIfaceEdges
  have hs := modified_removeSuccLoop r ((fl.succListAt r).length + 1) 0 fl h
  cases hrc : removeSuccLoop r 0 ((fl.succListAt r).length + 1) fl with
  | mk fl1 err =>
    rw [hrc] at hs
    cases err with
    | none => exact modified_removePredLoop r _ 0 fl1 hs
    | some e => exact hs

theorem modified_removeNode (fl : Flow) (n : FNode) :
    (fl.removeNode n).1.modified = true := by
  unfold Flow.removeNode
  have key : ∀ (l : List Iface) (acc : Flow × Option FErr), acc.1.modified = true →
      (l.foldl (fun (acc : Flow × Option FErr) i =>
        match acc with
        | (f, none) => removeIfaceEdges f ⟨n.id, i.name⟩
        | e => e) acc).1.modified = true := by
    intro l
    induction l with
    | nil => intro acc h; exact h
    | cons i rest ih =>
      intro acc h
      cases acc with
      | mk f err =>
        cases err with
        | none => exact ih _ (modified_removeIfaceEdges f ⟨n.id, i.name⟩ h)
        | some e => exact ih _ h
  have final : ∀ res : Flow × Option FErr, res.1.modified = true →
      (match res with
       | (fl1, none) =>
         if fl1.nodes.any (fun m => decide (m.id = n.id)) then
           ({ fl1 with nodes := fl1.nodes.eraseP (fun m => decide (m.id = n.id)) }, none)
         else (fl1, some FErr.notFound)
       | e => e).1.modified = true := by
    intro res hres
    cases res with
    | mk fl1 err =>
      cases err with
      | none =>
        dsimp only
        split <;> exact hres
      | some e => exact hres
  exact final _ (key n.interfaces ({ fl with modified := true }, none) rfl)

/-! ## Claim C10: failed graph mutations still set the dirty flag -/

/-- C10: `Flow.addConnector`, `Flow.removeConnector` and `Flow.removeNode`
each set `self.modified = True` before any validation (flow.py lines 78,
104, 111), so the flag is `true` after the call on *every* flow, every
argument, and every outcome — including the failing ones: a failed graph
mutation is not atomic with respect to the dirty flag. -/
theorem mutators_set_modified (fl : Flow) (s e : Ref) (n : FNode) :
    (fl.addConnector s e).1.modified = true ∧
    (fl.removeConnector s e).1.modified = true ∧
    (fl.removeNode n).1.modified = true :=
  ⟨modified_addConnector fl s e, modified_removeConnector fl s e, modified_removeNode fl n⟩

/-! ## Claim C7: the variant compatibility relation -/

/-- The variant rule exactly as claim C7 words it: a Scalar (value)
destination accepts only a Scalar source, a List destination only a List
source, a Stream destination accepts Stream, Scalar or List sources, and
every other cross-variant pairing is rejected. -/
def claimVariantAccepts : Variant → Variant → Bool
  | Variant.value, Variant.value => true
  | Variant.list, Variant.list => true
  | Variant.stream, _ => true
  | _, _ => false

/-- C7: the compatibility relation accepted when connecting a source
interface to a destination interface is exactly the claimed variant rule,
conjoined with the generic checks (distinct interfaces on distinct nodes
satisfying the direction/kind rule) embodied in `baseCompatible`. -/
theorem isCompatible_eq_variant_rule (dst src : IfaceInfo) :
    isCompatible dst src =
      (baseCompatible dst src && claimVariantAccepts dst.variant src.variant) := by
  cases hd : dst.variant <;> cases hs : src.variant <;>
    simp [isCompatible, claimVariantAccepts, hd, hs, Bool.and_comm]

/-! ## Claim C6: `addConnector` behaviour -/

/-- C6: for every pair of interfaces, `Flow.addConnector start end` fails
with the duplicate-edge error whenever the edge already exists in either
direction; fails with `IncompatibilityError` carrying both interfaces
(destination first, as raised at flow.py line 343) whenever the pair is
incompatible; and otherwise creates the symmetric edge, appending `end` to
`start.successors` and `start` to `end.predecessors`. -/
theorem addConnector_spec (fl : Flow) (s e : Ref) (si ei : Iface)
    (hs : fl.ifaceAt? s = some si) (he : fl.ifaceAt? e = some ei) :
    ((e ∈ si.successors ∨ s ∈ ei.successors) →
      fl.addConnector s e = ({ fl with modified := true }, some FErr.duplicateEdge)) ∧
    (¬ (e ∈ si.successors ∨ s ∈ ei.successors) →
      isCompatible ⟨e, ei.kind, ei.variant⟩ ⟨s, si.kind, si.variant⟩ = false →
      fl.addConnector s e = ({ fl with modified := true }, some (FErr.incompatibility e s))) ∧
    (¬ (e ∈ si.successors ∨ s ∈ ei.successors) →
      isCompatible ⟨e, ei.kind, ei.variant⟩ ⟨s, si.kind, si.variant⟩ = true →
      (fl.addConnector s e).2 = none ∧
      (fl.addConnector s e).1.ifaceAt? s =
        some { si with successors := si.successors ++ [e] } ∧
      (fl.addConnector s e).1.ifaceAt? e =
        some { ei with predecessors := ei.predecessors ++ [s] }) := by
  have hs' : Flow.ifaceAt? { fl with modified := true } s = some si := hs
  have he' : Flow.ifaceAt? { fl with modified := true } e = some ei := he
  have hinfos : Flow.infoAt? { fl with modified := true } s = some ⟨s, si.kind, si.variant⟩ := by
    simp [Flow.infoAt?, hs']
  have hinfoe : Flow.infoAt? { fl with modified := true } e = some ⟨e, ei.kind, ei.variant⟩ := by
    simp [Flow.infoAt?, he']
  refine ⟨?_, ?_, ?_⟩
  · intro hdup
    unfold Flow.addConnector
    dsimp only
    rw [hs', he']
    simp [hdup]
  · intro hdup hincomp
    unfold Flow.addConnector
    dsimp only
    rw [hs', he']
    simp only [if_neg hdup]
    unfold Flow.addSuccessor
    rw [hinfos, hinfoe]
    simp [hincomp]
  · intro hdup hcomp
    have hne : s ≠ e := by
      intro hcontra
      have : (⟨e, ei.kind, ei.variant⟩ : IfaceInfo).ref ≠ (⟨s, si.kind, si.variant⟩ : IfaceInfo).ref := by
        cases hb : baseCompatible ⟨e, ei.kind, ei.variant⟩ ⟨s, si.kind, si.variant⟩ with
        | false =>
          exfalso
          rw [isCompatible_eq_variant_rule, hb] at hcomp
          simp at hcomp
        | true =>
          unfold baseCompatible at hb
          simp only [Bool.and_eq_true, decide_eq_true_eq] at hb
          exact hb.1.1.1
      exact this (by simp [hcontra])
    have hnn : e.nodeId ≠ s.nodeId := by
      cases hb : baseCompatible ⟨e, ei.kind, ei.variant⟩ ⟨s, si.kind, si.variant⟩ with
      | false =>
        exfalso
        rw [isCompatible_eq_variant_rule, hb] at hcomp
        simp at hcomp
      | true =>
        unfold baseCompatible at hb
        simp only [Bool.and_eq_true, decide_eq_true_eq] at hb
        exact hb.1.1.2
    have hrne : e ≠ s := fun hc => hne hc.symm
    unfold Flow.addConnector
    dsimp only
    rw [hs', he']
    simp only [if_neg hdup]
    unfold Flow.addSuccessor
    rw [hinfos, hinfoe]
    simp only [hcomp, if_pos]
    refine ⟨by simp, ?_, ?_⟩
    · show (Flow.ifaceAt? _ s) = _
      unfold Flow.appendEdge
      rw [ifaceAt?_updateIface_other _ e s
          (fun i => { i with predecessors := i.predecessors ++ [s] }) (fun i => rfl) hne,
        ifaceAt?_updateIface_same _ s
          (fun i => { i with successors := i.successors ++ [e] }) (fun i => rfl), hs']
      rfl
    · show (Flow.ifaceAt? _ e) = _
      unfold Flow.appendEdge
      rw [ifaceAt?_updateIface_same _ e
          (fun i => { i with predecessors := i.predecessors ++ [s] }) (fun i => rfl),
        ifaceAt?_updateIface_other _ s e
          (fun i => { i with successors := i.successors ++ [e] }) (fun i => rfl) hrne, he']
      rfl

/-- Concrete flows used to instantiate theorems with hypotheses. -/
def wIfaceOut : Iface :=
  { name := "out", kind := Kind.output, variant := Variant.value, slot := true,
    value := none, successors := [], predecessors := [] }

def wIfaceIn : Iface :=
  { name := "in", kind := Kind.parameter, variant := Variant.value, slot := true,
    value := none, successors := [], predecessors := [] }

def wNodeA : FNode :=
  { id := "A", typeName := "flow.T", label := "T", incidence := 0,
    graphicalprops := [], interfaces := [wIfaceOut] }

def wNodeB : FNode :=
  { id := "B", typeName := "flow.T", label := "T", incidence := 0,
    graphicalprops := [], interfaces := [wIfaceIn] }

def wFlow : Flow := { modified := false, nodes := [wNodeA, wNodeB] }

/-- Witness for C6: instantiating `addConnector_spec` on a concrete
two-node flow with a compatible pair creates the edge. -/
theorem addConnector_spec_witness :
    (wFlow.addConnector ⟨"A", "out"⟩ ⟨"B", "in"⟩).2 = none ∧
    (wFlow.addConnector ⟨"A", "out"⟩ ⟨"B", "in"⟩).1.ifaceAt? ⟨"A", "out"⟩ =
      some { wIfaceOut with successors := [⟨"B", "in"⟩] } :=
  have h := (addConnector_spec wFlow ⟨"A", "out"⟩ ⟨"B", "in"⟩ wIfaceOut wIfaceIn
    (by decide) (by decide)).2.2 (by decide) (by decide)
  ⟨h.1, by rw [h.2.1]; rfl⟩

/-! ## Claim C3: `InterfaceStream.load` from scalar interfaces -/

/-- The state of the temporary file backing an `InterfaceStream`
(flow.py line 640): its text content and the current cursor position
(cursor positions within the content, as the exercised scenarios stay). -/
structure StreamState where
  content : String
  pos : Nat
  deriving DecidableEq, Repr

/-- A file `write` at the cursor (flow.py line 671): overwrite in place
from the cursor position and advance the cursor past the written data. -/
def StreamState.write (s : StreamState) (data : String) : StreamState :=
  { content := s.content.take s.pos ++ data ++ s.content.drop (s.pos + data.length),
    pos := s.pos + data.length }

/-- `stream.tell()`. -/
def StreamState.tell (s : StreamState) : Nat := s.pos

/-- `stream.seek(p)`. -/
def StreamState.seek (s : StreamState) (p : Nat) : StreamState := { s with pos := p }

/-- The `InterfaceValue` branch of `InterfaceStream.load` (flow.py lines
668-672): `ftell = tell(); write("%s\n" % other.value); seek(ftell)`. -/
def streamLoadValue (s : StreamState) (v : String) : StreamState :=
  let ftell := s.tell
  let s1 := s.write (v ++ "\n")
  s1.seek ftell

/-- Reading the backing storage fully from the beginning. -/
def StreamState.readAllFromStart (s : StreamState) : String := s.content

/-- `InterfaceStream.load` from a scalar, including the connectivity
check inherited from `Interface.load` (flow.py lines 358-364, 662-663):
loading from an interface that is neither a successor nor a predecessor
fails with a `FlowError`. -/
def ifaceStreamLoadValue (self : Iface) (st : StreamState) (other : Ref) (v : String) :
    Except FErr StreamState :=
  if other ∉ self.successors ∧ other ∉ self.predecessors then Except.error FErr.notConnected
  else Except.ok (streamLoadValue st v)

/-- A stream interface connected to two scalar predecessors. -/
def cStreamIface : Iface :=
  { name := "in", kind := Kind.input, variant := Variant.stream, slot := true,
    value := none, successors := [],
    predecessors := [⟨"P1", "out"⟩, ⟨"P2", "out"⟩] }

/-- C3 counterexample: the claim asserts that two sequential scalar loads
of "a" then "b" leave the backing storage containing exactly "a\nb\n";
running the code's load twice from the two connected scalar predecessors
leaves "b\n" — the first load seeks back to position 0, so the second
write starts there and overwrites the first line. -/
theorem streamLoad_twice_not_append :
    ((ifaceStreamLoadValue cStreamIface ⟨"", 0⟩ ⟨"P1", "out"⟩ "a").bind
      (fun st => ifaceStreamLoadValue cStreamIface st ⟨"P2", "out"⟩ "b")) =
      Except.ok { content := "b\n", pos := 0 } ∧
    StreamState.readAllFromStart { content := "b\n", pos := 0 } ≠ "a\nb\n" := by
  constructor
  · rfl
  · decide

/-- C3 amended: each Stream←Scalar load writes the scalar's text plus a
newline at the stream's current write position and then resets the cursor
to the position prior to the write; consequently loading "a" then "b" in
sequence leaves the backing storage containing exactly "b\n" when fully
read back from the beginning — the reset cursor makes the second write
overwrite the first line. -/
theorem streamLoadValue_spec (s : StreamState) (v : String) :
    streamLoadValue s v =
      { content := s.content.take s.pos ++ (v ++ "\n")
          ++ s.content.drop (s.pos + (v ++ "\n").length),
        pos := s.pos } ∧
    ((ifaceStreamLoadValue cStreamIface ⟨"", 0⟩ ⟨"P1", "out"⟩ "a").bind
      (fun st => ifaceStreamLoadValue cStreamIface st ⟨"P2", "out"⟩ "b")).map
        StreamState.readAllFromStart = Except.ok "b\n" := by
  exact ⟨rfl, rfl⟩

/-! ## Claim C5: `removeNode` -/

/-- Shorthand for a slot value interface used in the concrete flows. -/
def mkIface (nm : String) (k : Kind) (succ pred : List Ref) : Iface :=
  { name := nm, kind := k, variant := Variant.value, slot := true, value := none,
    successors := succ, predecessors := pred }

/-- Shorthand for a node of the concrete flows. -/
def mkNode (nid : String) (ifs : List Iface) : FNode :=
  { id := nid, typeName := "flow.T", label := "T", incidence := 0,
    graphicalprops := [], interfaces := ifs }

/-- A whose single output interface feeds both inputs of B. -/
def cNodeA5 : FNode :=
  mkNode "A" [mkIface "out" Kind.output [⟨"B", "in1"⟩, ⟨"B", "in2"⟩] []]

def cNodeB5 : FNode :=
  mkNode "B" [mkIface "in1" Kind.parameter [] [⟨"A", "out"⟩],
    mkIface "in2" Kind.parameter [] [⟨"A", "out"⟩]]

def cFlow5 : Flow := { modified := false, nodes := [cNodeA5, cNodeB5] }

/-- C5 (code bug): `removeNode` iterates `interface.successors` while
each `removeConnector` call removes the current element from that very
list, so Python's index-based `for` skips every other edge.  Removing
node A — whose single output interface has the two successors B.in1 and
B.in2 — detaches the edge to B.in1, removes A from the collection without
error, but leaves B.in2 still listing the vanished A.out among its
predecessors, contradicting the claim (and the code's own intent, the
"Remove all connectors" comment at flow.py line 112) that every incident
edge is severed in both directions. -/
theorem removeNode_skips_alternate_edges :
    (cFlow5.removeNode cNodeA5).2 = none ∧
    (cFlow5.removeNode cNodeA5).1.findNode? "A" = none ∧
    ((cFlow5.removeNode cNodeA5).1.ifaceAt? ⟨"B", "in1"⟩).map Iface.predecessors =
      some [] ∧
    ((cFlow5.removeNode cNodeA5).1.ifaceAt? ⟨"B", "in2"⟩).map Iface.predecessors =
      some [⟨"A", "out"⟩] := by
  refine ⟨?_, ?_, ?_, ?_⟩ <;> rfl

/-! ## Claim C4: incidence layering -/

/-- The incidence recorded for a node id. -/
def incidenceOf (fl : Flow) (nid : String) : Option Nat :=
  (fl.findNode? nid).map FNode.incidence

/-- Linear chain A→B→C. -/
def chainFlow : Flow :=
  { modified := false, nodes :=
    [mkNode "A" [mkIface "out" Kind.output [⟨"B", "in"⟩] []],
     mkNode "B" [mkIface "in" Kind.parameter [] [⟨"A", "out"⟩],
       mkIface "out" Kind.output [⟨"C", "in"⟩] []],
     mkNode "C" [mkIface "in" Kind.parameter [] [⟨"B", "out"⟩]]] }

/-- Diamond A→{B,C}→D. -/
def diamondFlow : Flow :=
  { modified := false, nodes :=
    [mkNode "A" [mkIface "out" Kind.output [⟨"B", "in"⟩, ⟨"C", "in"⟩] []],
     mkNode "B" [mkIface "in" Kind.parameter [] [⟨"A", "out"⟩],
       mkIface "out" Kind.output [⟨"D", "in"⟩] []],
     mkNode "C" [mkIface "in" Kind.parameter [] [⟨"A", "out"⟩],
       mkIface "out" Kind.output [⟨"D", "in"⟩] []],
     mkNode "D" [mkIface "in" Kind.parameter [] [⟨"B", "out"⟩, ⟨"C", "out"⟩]]] }

/-- The same diamond with A's successor list in the opposite order, so
the traversal visits C before B. -/
def diamondFlowR : Flow :=
  { modified := false, nodes :=
    [mkNode "A" [mkIface "out" Kind.output [⟨"C", "in"⟩, ⟨"B", "in"⟩] []],
     mkNode "B" [mkIface "in" Kind.parameter [] [⟨"A", "out"⟩],
       mkIface "out" Kind.output [⟨"D", "in"⟩] []],
     mkNode "C" [mkIface "in" Kind.parameter [] [⟨"A", "out"⟩],
       mkIface "out" Kind.output [⟨"D", "in"⟩] []],
     mkNode "D" [mkIface "in" Kind.parameter [] [⟨"B", "out"⟩, ⟨"C", "out"⟩]]] }

/-- A→B, A→C, B→C: C is reached at level 3 through B and then re-visited
at level 2 directly from A. -/
def overwriteFlow : Flow :=
  { modified := false, nodes :=
    [mkNode "A" [mkIface "out" Kind.output [⟨"B", "in"⟩, ⟨"C", "in"⟩] []],
     mkNode "B" [mkIface "in" Kind.parameter [] [⟨"A", "out"⟩],
       mkIface "out" Kind.output [⟨"C", "in"⟩] []],
     mkNode "C" [mkIface "in" Kind.parameter [] [⟨"A", "out"⟩, ⟨"B", "out"⟩]]] }

/-- C4 counterexample: `setincidence` assigns `n.incidence = level`
unconditionally — not `max(current, parent + 1)` — so a re-visit *can
decrease* a node's layer.  In A→B, A→C, B→C the traversal sets C to 3 via
B and then back to 2 via A: the final layers are B = 2 and C = 2 although
C is a direct successor of B, contradicting the claimed
"max(current layer, parent layer + 1)" rule, under which C would end at
3 = B + 1. -/
theorem setincidence_revisit_decreases :
    incidenceOf (overwriteFlow.sortNodesByIncidence 32) "B" = some 2 ∧
    incidenceOf (overwriteFlow.sortNodesByIncidence 32) "C" = some 2 ∧
    ((overwriteFlow.sortNodesByIncidence 32).findNode? "B").map FNode.successorNodeIds =
      some ["C"] ∧
    ¬ (2 + 1 ≤ 2) := by
  refine ⟨by decide, by decide, by decide, by omega⟩

/-- C4 amended: start nodes get layer 1 and each visit assigns a node's
direct successors `parent layer + 1` *unconditionally* (a re-visit
overwrites and may decrease the layer, as the A→B, A→C, B→C graph shows:
B and C both end at layer 2).  The linear chain A→B→C still yields
incidences 1, 2, 3, the diamond A→{B,C}→D yields D = 3 in either
traversal order, and the nodes end up ordered by incidence ascending with
ties broken by id. -/
theorem sortNodesByIncidence_examples :
    ((chainFlow.sortNodesByIncidence 32).nodes.map (fun n => (n.id, n.incidence))) =
      [("A", 1), ("B", 2), ("C", 3)] ∧
    incidenceOf (diamondFlow.sortNodesByIncidence 32) "D" = some 3 ∧
    incidenceOf (diamondFlowR.sortNodesByIncidence 32) "D" = some 3 ∧
    ((diamondFlow.sortNodesByIncidence 32).nodes.map (fun n => (n.id, n.incidence))) =
      [("A", 1), ("B", 2), ("C", 2), ("D", 3)] ∧
    ((overwriteFlow.sortNodesByIncidence 32).nodes.map (fun n => (n.id, n.incidence))) =
      [("A", 1), ("B", 2), ("C", 2)] := by
  refine ⟨by decide, by decide, by decide, by decide, by decide⟩

/-! ## Claim C8: `addNode` and `randomId` -/

/-- A node whose id was never set (`id = ''`). -/
def c8Node : FNode :=
  { id := "", typeName := "flow.V", label := "Value", incidence := 0,
    graphicalprops := [], interfaces := [] }

def c8Empty : Flow := { modified := false, nodes := [] }

/-- C8 counterexample: adding a node with an unset (empty) id to an empty
flow performs *no* auto-generation: `findNode('')` raises
`NodeNotFoundError`, the `except` branch passes, and the node is appended
with its id still `''` — not `"Value"` (its label) as the claim requires. -/
theorem addNode_no_autogen :
    (c8Empty.addNode c8Node).2 = none ∧
    (c8Empty.addNode c8Node).1.nodeIds = [""] ∧
    ("" : String) ≠ "Value" := by
  refine ⟨rfl, rfl, by decide⟩

/-- C8 amended: `addNode` fails with the duplicate-id error exactly when
the node's id is nonempty and already present (the flow is then left
untouched — the raise precedes the dirty marking); when the id is empty
and an *empty-id* node is already a member, a fresh id label, label-2,
label-3, ... is generated and the node is appended; otherwise — including
an unset id with no empty-id collision — the node is appended with its id
unchanged (generation for fresh unset ids happens in `Node.__init__` when
a flow is supplied, not in `addNode`).  Successful adds mark the flow
dirty.  `randomId` never returns an id already present and depends only
on the id set and the label. -/
theorem addNode_spec (fl : Flow) (n : FNode) (ids ids' : List String) (label : String) :
    ((fl.findNode? n.id).isSome → n.id ≠ "" →
      fl.addNode n = (fl, some FErr.duplicateId)) ∧
    ((fl.findNode? n.id).isSome → n.id = "" →
      fl.addNode n =
        ({ modified := true,
           nodes := fl.nodes ++ [{ n with id := randomId fl.nodeIds n.label }] }, none) ∧
      randomId fl.nodeIds n.label ∉ fl.nodeIds) ∧
    (fl.findNode? n.id = none →
      fl.addNode n = ({ modified := true, nodes := fl.nodes ++ [n] }, none)) ∧
    randomId ids label ∉ ids ∧
    ((∀ x, x ∈ ids ↔ x ∈ ids') → randomId ids label = randomId ids' label) := by
  refine ⟨?_, ?_, ?_, randomId_fresh ids label, randomId_congr ids ids' label⟩
  · intro hsome hne
    unfold Flow.addNode
    cases h : fl.findNode? n.id with
    | none => rw [h] at hsome; simp at hsome
    | some m => simp [hne]
  · intro hsome hempty
    unfold Flow.addNode
    cases h : fl.findNode? n.id with
    | none => rw [h] at hsome; simp at hsome
    | some m => exact ⟨by simp [hempty], randomId_fresh fl.nodeIds n.label⟩
  · intro hnone
    unfold Flow.addNode
    rw [hnone]

/-- Witness for C8: the duplicate-id failure on a concrete flow and the
freshness of `randomId` on a concrete id list, via `addNode_spec`. -/
theorem addNode_spec_witness :
    wFlow.addNode wNodeA = (wFlow, some FErr.duplicateId) ∧
    randomId ["T"] "T" ∉ ["T"] :=
  have h := addNode_spec wFlow wNodeA ["T"] ["T"] "T"
  ⟨h.1 (by decide) (by decide), h.2.2.2.1⟩

/-! ## Claim C9: exceptions in `Node.run` are swallowed by `start` -/

/-- `Node.outputInterfaces` (flow.py lines 492-494): the non-input-like
interfaces. -/
def FNode.outputInterfaces (n : FNode) : List Iface :=
  n.interfaces.filter (fun i => !(isInputKind i.kind))

/-- The notifications `interface.onContentReady(i)` emitted at the end of
`Node.start` (flow.py lines 572-575): one (destination, source interface
name) pair per successor of each output-like interface, in loop order. -/
def FNode.outputNotifications (n : FNode) : List (Ref × String) :=
  (n.outputInterfaces.map (fun i => i.successors.map (fun succ => (succ, i.name)))).flatten

/-- The per-node execution state mutated by `Node.start`: the node's
data plus the `canRun` event and `running` flag. -/
structure ExecState where
  node : FNode
  canRun : Bool
  running : Bool
  deriving DecidableEq, Repr

/-- `Node.start` (flow.py lines 554-575), from the point where
`canRun.wait()` has returned.  The work function `run` is modelled by
`runFn`, returning the node state it produced together with `true` when
it raised; `try: self.run() ... except Exception as e: self.exception(e)`
catches any exception and only logs it, keeping the (possibly partial)
mutations.  Either way `running` is reset, `canRun` is cleared and every
successor of every output-like interface is notified. -/
def nodeStart (s : ExecState) (runFn : FNode → FNode × Bool) :
    ExecState × List (Ref × String) :=
  let afterRun := (runFn s.node).1
  ({ node := afterRun, canRun := false, running := false },
    afterRun.outputNotifications)

/-- C9: an exception inside `run` is caught, logged and not re-raised:
`start` still completes, clears the node's wait condition, and notifies
every successor of every output-like interface exactly as if the node had
succeeded — a raising work function and a non-raising one with the same
effect on the node produce identical final states and notification
lists, and the notifications are exactly one per successor of each
output-like interface of the post-run node. -/
theorem nodeStart_exception_ignored (s : ExecState) (f g : FNode → FNode × Bool)
    (hwait : s.canRun = true) (hfg : ∀ m, (f m).1 = (g m).1) :
    nodeStart s f = nodeStart s g ∧
    (nodeStart s f).1.canRun = false ∧
    (nodeStart s f).2 = ((f s.node).1).outputNotifications := by
  unfold nodeStart
  refine ⟨?_, rfl, rfl⟩
  rw [hfg s.node]

/-- Witness for C9: a raising run and a succeeding run with the same
state effect, on a concrete node. -/
theorem nodeStart_exception_ignored_witness :
    nodeStart ⟨wNodeA, true, false⟩ (fun m => (m, true)) =
      nodeStart ⟨wNodeA, true, false⟩ (fun m => (m, false)) :=
  (nodeStart_exception_ignored ⟨wNodeA, true, false⟩ (fun m => (m, true))
    (fun m => (m, false)) rfl (fun m => rfl)).1

/-! ## Claim C2: the readiness protocol

`Interface.onContentReady` (flow.py lines 373-383) and
`Node.onInterfaceReady` (flow.py lines 530-540), modelled for a single
node: predecessor interfaces are identified by strings (the
`__readypredecessors` dict is keyed by interface object identity). -/

/-- An interface as the readiness protocol sees it: name, kind, `slot`,
the current `predecessors` list and the keys of `__readypredecessors`
(distinct, in first-signal order). -/
structure PIface where
  name : String
  kind : Kind
  slot : Bool
  preds : List String
  ready : List String
  deriving DecidableEq, Repr

/-- The readiness state of one node: interfaces, the keys of
`__readyinterfaces`, and the `canRun` event. -/
structure PNode where
  ifaces : List PIface
  readyIfaces : List String
  canRun : Bool
  deriving DecidableEq, Repr

/-- `len(self.inputSlotInterfaces)` (flow.py lines 488-490, 537). -/
def PNode.slotCount (n : PNode) : Nat :=
  (n.ifaces.filter (fun i => isInputKind i.kind && i.slot)).length

/-- `d[key] = True` on an identity-keyed dict: insert the key if absent. -/
def insertOnce (x : String) (l : List String) : List String :=
  if x ∈ l then l else l ++ [x]

/-- `Node.onInterfaceReady` (flow.py lines 530-540): record the interface
in `__readyinterfaces`; once the count of distinct ready interfaces
reaches the number of input-slot interfaces, set `canRun`. -/
def PNode.onInterfaceReady (n : PNode) (nm : String) : PNode :=
  let ri := insertOnce nm n.readyIfaces
  let n1 : PNode := { n with readyIfaces := ri }
  if n1.slotCount ≤ ri.length then { n1 with canRun := true } else n1

/-- Replace the first interface with the given name. -/
def updatePIface (nm : String) (g : PIface → PIface) : List PIface → List PIface
  | [] => []
  | i :: rest => if i.name = nm then g i :: rest else i :: updatePIface nm g rest

/-- First interface with the given name. -/
def PNode.findPIface (n : PNode) (nm : String) : Option PIface :=
  n.ifaces.find? (fun i => decide (i.name = nm))

/-- `self.__readypredecessors[interface] = True` (flow.py line 380): the
signalling predecessor is recorded in the identity-keyed dict of the
interface. -/
def PNode.recordReady (n : PNode) (p nm : String) : PNode :=
  { n with ifaces := updatePIface nm (fun i => { i with ready := insertOnce p i.ready }) n.ifaces }

/-- `Interface.onContentReady` (flow.py lines 373-383): after the `load`
merge (content is not tracked here), record the signalling predecessor in
the identity-keyed dict; once the count of distinct ready predecessors
reaches the *current* predecessor count, notify the owning node. -/
def PNode.onContentReady (n : PNode) (p : String) (nm : String) : PNode :=
  let n1 := n.recordReady p nm
  match n1.findPIface nm with
  | some i => if i.preds.length ≤ i.ready.length then n1.onInterfaceReady nm else n1
  | none => n1

/-- The destination-side effect of `Interface.removeSuccessor` (flow.py
line 354): drop the predecessor from the interface's `predecessors`; the
readiness records are *not* touched and nothing is re-evaluated. -/
def PNode.removeEdge (n : PNode) (p : String) (nm : String) : PNode :=
  { n with ifaces := updatePIface nm (fun i => { i with preds := i.preds.erase p }) n.ifaces }

/-- The events that can reach a node's readiness state. -/
inductive PEvent where
  /-- A predecessor `p` of interface `nm` invokes `onContentReady`. -/
  | signal (p : String) (nm : String)
  /-- The edge from `p` to interface `nm` is removed. -/
  | removeEdge (p : String) (nm : String)
  deriving DecidableEq, Repr

def PNode.step (n : PNode) : PEvent → PNode
  | PEvent.signal p nm => n.onContentReady p nm
  | PEvent.removeEdge p nm => n.removeEdge p nm

def PNode.run (n : PNode) : List PEvent → PNode
  | [] => n
  | e :: rest => (n.step e).run rest

/-- Structural validity of an initial readiness state: distinct interface
names, nothing signalled yet, duplicate-free predecessor lists, the
interfaces with predecessors are exactly the input-slot ones, and there
is at least one input-slot interface. -/
def PNode.valid (n : PNode) : Bool :=
  decide ((n.ifaces.map PIface.name).Nodup)
  && n.ifaces.all (fun i => i.ready.isEmpty && decide (i.preds.Nodup)
       && (if isInputKind i.kind && i.slot then !i.preds.isEmpty else i.preds.isEmpty))
  && !(n.ifaces.filter (fun i => isInputKind i.kind && i.slot)).isEmpty
  && n.readyIfaces.isEmpty && !n.canRun

/-- An admissible signal: `onContentReady` is only ever invoked by an
interface currently listed among the target's predecessors (flow.py
lines 572-575 notify successors, and edges are symmetric). -/
def PNode.validSignal (n : PNode) : PEvent → Bool
  | PEvent.signal p nm =>
    match n.findPIface nm with
    | some i => decide (p ∈ i.preds)
    | none => false
  | PEvent.removeEdge _ _ => false

/-- A trace of signals admissible for the initial node (no removals; the
predecessor lists never change along such a trace). -/
def PNode.validTrace (n : PNode) (evs : List PEvent) : Bool :=
  evs.all n.validSignal

/-- Every input-slot interface has recorded readiness from all of its
current predecessors. -/
def PNode.allSlotReady (n : PNode) : Bool :=
  n.ifaces.all (fun i =>
    !(isInputKind i.kind && i.slot) || i.preds.all (fun p => decide (p ∈ i.ready)))

/-- The single-slot-interface node of the C2 scenarios: interface "in"
with the two predecessors P and Q. -/
def c2Iface : PIface :=
  { name := "in", kind := Kind.parameter, slot := true,
    preds := ["P", "Q"], ready := [] }

def c2Node : PNode :=
  { ifaces := [c2Iface], readyIfaces := [], canRun := false }

/-- C2 counterexample: the claim says that removing one predecessor edge
of an input-slot interface before all of its predecessors have signalled
prevents the node from ever becoming runnable from the remaining signals
alone.  Removing the edge from Q first (before anyone signalled) and then
letting the remaining predecessor P signal *does* make the node runnable:
the removal lowered the interface's threshold to one predecessor, so P's
single signal reaches it and `canRun` is set. -/
theorem readiness_remove_then_signal_runs :
    (c2Node.run [PEvent.removeEdge "Q" "in", PEvent.signal "P" "in"]).canRun = true := by
  decide

/-! ### The protocol invariant -/

/-- The protocol-relevant skeleton of an interface: everything except the
readiness record.  Signal events never change it. -/
def pQuad (i : PIface) : String × Kind × Bool × List String :=
  (i.name, i.kind, i.slot, i.preds)

theorem insertOnce_mem (x y : String) (l : List String) :
    y ∈ insertOnce x l ↔ y = x ∨ y ∈ l := by
  unfold insertOnce
  split
  · rename_i hx
    constructor
    · exact fun h => Or.inr h
    · rintro (rfl | h)
      · exact hx
      · exact h
  · simp [or_comm]

theorem insertOnce_nodup (x : String) (l : List String) (h : l.Nodup) :
    (insertOnce x l).Nodup := by
  unfold insertOnce
  split
  · exact h
  · rename_i hx
    simp [List.nodup_append, h, hx]

theorem insertOnce_length_le (x : String) (l : List String) :
    l.length ≤ (insertOnce x l).length := by
  unfold insertOnce
  split
  · exact le_refl _
  · simp

theorem length_le_of_nodup_subset {l₁ l₂ : List String} (h : l₁.Nodup) (hs : l₁ ⊆ l₂) :
    l₁.length ≤ l₂.length := by
  calc l₁.length = l₁.toFinset.card := (List.toFinset_card_of_nodup h).symm
    _ ≤ l₂.toFinset.card := by
        apply Finset.card_le_card
        intro x hx
        rw [List.mem_toFinset] at hx ⊢
        exact hs hx
    _ ≤ l₂.length := l₂.toFinset_card_le

theorem subset_of_nodup_subset_ge {l₁ l₂ : List String} (h₁ : l₁.Nodup)
    (hsub : l₁ ⊆ l₂) (hlen : l₂.length ≤ l₁.length) : l₂ ⊆ l₁ := by
  have hfs : l₁.toFinset ⊆ l₂.toFinset := by
    intro x hx
    rw [List.mem_toFinset] at hx ⊢
    exact hsub hx
  have hc : l₂.toFinset.card ≤ l₁.toFinset.card := by
    calc l₂.toFinset.card ≤ l₂.length := l₂.toFinset_card_le
      _ ≤ l₁.length := hlen
      _ = l₁.toFinset.card := (List.toFinset_card_of_nodup h₁).symm
  have heq : l₁.toFinset = l₂.toFinset := Finset.eq_of_subset_of_card_le hfs hc
  intro x hx
  have : x ∈ l₂.toFinset := List.mem_toFinset.2 hx
  rw [← heq] at this
  exact List.mem_toFinset.1 this

theorem find?_updatePIface_same (nm : String) (g : PIface → PIface)
    (hg : ∀ i, (g i).name = i.name) :
    ∀ l : List PIface,
      (updatePIface nm g l).find? (fun i => decide (i.name = nm)) =
        (l.find? (fun i => decide (i.name = nm))).map g := by
  intro l
  induction l with
  | nil => simp [updatePIface]
  | cons i rest ih =>
    by_cases h1 : i.name = nm
    · simp [updatePIface, h1, List.find?_cons, hg i]
    · simp [updatePIface, h1, List.find?_cons, ih]

theorem find?_updatePIface_other (nm nm' : String) (g : PIface → PIface)
    (hg : ∀ i, (g i).name = i.name) (hne : nm' ≠ nm) :
    ∀ l : List PIface,
      (updatePIface nm g l).find? (fun i => decide (i.name = nm')) =
        l.find? (fun i => decide (i.name = nm')) := by
  intro l
  induction l with
  | nil => simp [updatePIface]
  | cons i rest ih =>
    by_cases h1 : i.name = nm
    · have hgne : (g i).name ≠ nm' := by rw [hg i, h1]; exact fun hc => hne hc.symm
      have h2 : i.name ≠ nm' := by rw [h1]; exact fun hc => hne hc.symm
      simp [updatePIface, h1, List.find?_cons, hgne, h2, hne, Ne.symm hne]
    · by_cases h3 : i.name = nm'
      · simp [updatePIface, h1, List.find?_cons, h3, hne, Ne.symm hne]
      · simp [updatePIface, h1, List.find?_cons, h3, ih, hne, Ne.symm hne]

theorem map_pQuad_updatePIface (nm : String) (g : PIface → PIface)
    (hg : ∀ i, pQuad (g i) = pQuad i) :
    ∀ l : List PIface, (updatePIface nm g l).map pQuad = l.map pQuad := by
  intro l
  induction l with
  | nil => rfl
  | cons i rest ih =>
    by_cases h1 : i.name = nm
    · simp [updatePIface, h1, hg i]
    · simp [updatePIface, h1, ih]

theorem find?_map_pQuad (nm : String) :
    ∀ l₁ l₂ : List PIface, l₁.map pQuad = l₂.map pQuad →
      (l₁.find? (fun i => decide (i.name = nm))).map pQuad =
        (l₂.find? (fun i => decide (i.name = nm))).map pQuad := by
  intro l₁
  induction l₁ with
  | nil =>
    intro l₂ h
    cases l₂ with
    | nil => rfl
    | cons b t => simp at h
  | cons a t ih =>
    intro l₂ h
    cases l₂ with
    | nil => simp at h
    | cons b t₂ =>
      simp only [List.map_cons, List.cons.injEq] at h
      have hn : a.name = b.name := congrArg Prod.fst h.1
      by_cases hx : a.name = nm
      · have hbx : b.name = nm := hn ▸ hx
        simp [List.find?_cons, hx, hbx, h.1]
      · have hbx : ¬ b.name = nm := hn ▸ hx
        simp only [List.find?_cons, hx, hbx, decide_eq_false, Bool.false_eq_true]
        exact ih t₂ h.2

theorem slotCount_eq_of_quads :
    ∀ l₁ l₂ : List PIface, l₁.map pQuad = l₂.map pQuad →
      (l₁.filter (fun i => isInputKind i.kind && i.slot)).length =
        (l₂.filter (fun i => isInputKind i.kind && i.slot)).length := by
  intro l₁
  induction l₁ with
  | nil =>
    intro l₂ h
    cases l₂ with
    | nil => rfl
    | cons b t => simp at h
  | cons a t ih =>
    intro l₂ h
    cases l₂ with
    | nil => simp at h
    | cons b t₂ =>
      simp only [List.map_cons, List.cons.injEq] at h
      have hk : a.kind = b.kind := congrArg (fun q => q.2.1) h.1
      have hs : a.slot = b.slot := congrArg (fun q => q.2.2.1) h.1
      by_cases hc : (isInputKind a.kind && a.slot) = true
      · have hc2 : (isInputKind b.kind && b.slot) = true := by rw [← hk, ← hs]; exact hc
        simp [List.filter_cons, hc, hc2, ih t₂ h.2]
      · have hc2 : ¬ (isInputKind b.kind && b.slot) = true := by rw [← hk, ← hs]; exact hc
        simp [List.filter_cons, hc, hc2, ih t₂ h.2]

theorem names_eq_of_quads :
    ∀ l₁ l₂ : List PIface, l₁.map pQuad = l₂.map pQuad →
      l₁.map PIface.name = l₂.map PIface.name := by
  intro l₁
  induction l₁ with
  | nil =>
    intro l₂ h
    cases l₂ with
    | nil => rfl
    | cons b t => simp at h
  | cons a t ih =>
    intro l₂ h
    cases l₂ with
    | nil => simp at h
    | cons b t₂ =>
      simp only [List.map_cons, List.cons.injEq] at h
      exact List.cons_eq_cons.2 ⟨congrArg Prod.fst h.1, ih t₂ h.2⟩

theorem find?_self_of_nodup_names :
    ∀ (l : List PIface), (l.map PIface.name).Nodup → ∀ i ∈ l,
      l.find? (fun j => decide (j.name = i.name)) = some i := by
  intro l
  induction l with
  | nil => intro _ i hi; simp at hi
  | cons a t ih =>
    intro hnd i hi
    simp only [List.map_cons, List.nodup_cons] at hnd
    cases hi with
    | head => simp [List.find?_cons]
    | tail _ hmem =>
      have hne : a.name ≠ i.name := by
        intro hc
        exact hnd.1 (hc ▸ List.mem_map_of_mem PIface.name hmem)
      simp only [List.find?_cons, hne, decide_eq_false, Bool.false_eq_true]
      exact ih hnd.2 i hmem

/-- The invariant maintained by admissible signal traces from a valid
initial node `n₀`: skeletons are untouched; readiness records are
duplicate-free subsets of the predecessors; `__readyinterfaces` holds
exactly the interfaces that have heard from all their (at-least-one)
predecessors; `canRun` is set exactly when their count has reached the
input-slot interface count. -/
def RInv (n₀ s : PNode) : Prop :=
  s.ifaces.map pQuad = n₀.ifaces.map pQuad ∧
  (∀ nm i, s.findPIface nm = some i →
    i.ready.Nodup ∧ i.ready ⊆ i.preds ∧
    (i.name ∈ s.readyIfaces ↔ (i.preds ≠ [] ∧ i.preds ⊆ i.ready))) ∧
  s.readyIfaces.Nodup ∧
  (∀ nm ∈ s.readyIfaces, (s.findPIface nm).isSome) ∧
  (s.canRun = true ↔ s.slotCount ≤ s.readyIfaces.length)

theorem valid_parts (n : PNode) (hv : n.valid = true) :
    (n.ifaces.map PIface.name).Nodup ∧
    (∀ i ∈ n.ifaces, i.ready = [] ∧ i.preds.Nodup ∧
      (if (isInputKind i.kind && i.slot) = true then i.preds ≠ [] else i.preds = [])) ∧
    n.ifaces.filter (fun i => isInputKind i.kind && i.slot) ≠ [] ∧
    n.readyIfaces = [] ∧ n.canRun = false := by
  unfold PNode.valid at hv
  simp only [Bool.and_eq_true, decide_eq_true_eq, List.all_eq_true, Bool.not_eq_true',
    List.isEmpty_iff, List.isEmpty_eq_false] at hv
  obtain ⟨⟨⟨⟨hnd, hall⟩, hflt⟩, hri⟩, hcr⟩ := hv
  refine ⟨hnd, ?_, hflt, hri, hcr⟩
  intro i hi
  obtain ⟨⟨hre, hpnd⟩, hif⟩ := hall i hi
  refine ⟨hre, hpnd, ?_⟩
  simp only [Bool.and_eq_true]
  by_cases hc : isInputKind i.kind = true ∧ i.slot = true
  · rw [if_pos hc] at hif ⊢
    simpa using hif
  · rw [if_neg hc] at hif ⊢
    simpa using hif

theorem onContentReady_found (s : PNode) (p nm : String) (i : PIface)
    (hfound : (s.recordReady p nm).findPIface nm = some i) :
    s.onContentReady p nm =
      (if i.preds.length ≤ i.ready.length
       then (s.recordReady p nm).onInterfaceReady nm
       else s.recordReady p nm) := by
  unfold PNode.onContentReady
  dsimp only
  rw [hfound]

theorem onInterfaceReady_eq (n : PNode) (nm : String) :
    n.onInterfaceReady nm =
      if n.slotCount ≤ (insertOnce nm n.readyIfaces).length
      then { n with readyIfaces := insertOnce nm n.readyIfaces, canRun := true }
      else { n with readyIfaces := insertOnce nm n.readyIfaces } := rfl

theorem rinv_init (n : PNode) (hv : n.valid = true) : RInv n n := by
  obtain ⟨hnd, hall, hslot, hri, hcr⟩ := valid_parts n hv
  refine ⟨rfl, ?_, ?_, ?_, ?_⟩
  · intro nm i hfind
    have hmem : i ∈ n.ifaces := List.mem_of_find?_eq_some hfind
    obtain ⟨hready, hpnd, -⟩ := hall i hmem
    refine ⟨by rw [hready]; exact List.nodup_nil, by rw [hready]; exact List.nil_subset _, ?_⟩
    rw [hri]
    simp only [List.not_mem_nil, false_iff, not_and]
    intro hne hsub
    apply hne
    rw [hready] at hsub
    exact List.eq_nil_iff_forall_not_mem.2 (fun x hx => List.not_mem_nil x (hsub hx))
  · rw [hri]; exact List.nodup_nil
  · intro nm hmem
    rw [hri] at hmem
    simp at hmem
  · rw [hcr, hri]
    constructor
    · intro h; exact absurd h (by simp)
    · intro h
      exfalso
      have h0 : n.slotCount = 0 := Nat.le_zero.1 (by simpa using h)
      unfold PNode.slotCount at h0
      exact hslot (List.length_eq_zero.1 h0)

theorem rinv_step (n₀ s : PNode) (p nm : String) (hv : n₀.valid = true)
    (hinv : RInv n₀ s) (he : n₀.validSignal (PEvent.signal p nm) = true) :
    RInv n₀ (s.onContentReady p nm) := by
  obtain ⟨hL, hR, hN, hM, hC⟩ := hinv
  obtain ⟨hnd0, hall0, hslot0, -, -⟩ := valid_parts n₀ hv
  unfold PNode.validSignal at he
  dsimp only at he
  cases h0 : n₀.findPIface nm with
  | none => rw [h0] at he; simp at he
  | some i₀ =>
  rw [h0] at he
  have hp0 : p ∈ i₀.preds := by simpa using he
  have hq : (s.findPIface nm).map pQuad = (n₀.findPIface nm).map pQuad :=
    find?_map_pQuad nm s.ifaces n₀.ifaces hL
  rw [h0] at hq
  cases hs0 : s.findPIface nm with
  | none => rw [hs0] at hq; simp at hq
  | some i =>
  rw [hs0] at hq
  simp only [Option.map_some'] at hq
  have hqq : pQuad i = pQuad i₀ := Option.some.inj hq
  have hipreds : i.preds = i₀.preds := congrArg (fun q => q.2.2.2) hqq
  have hiname : i.name = nm := by simpa using List.find?_some hs0
  have hi0mem : i₀ ∈ n₀.ifaces := List.mem_of_find?_eq_some h0
  have hpi : p ∈ i.preds := by rw [hipreds]; exact hp0
  have hpnd : i.preds.Nodup := by rw [hipreds]; exact (hall0 i₀ hi0mem).2.1
  obtain ⟨hrnd, hrsub, hriff⟩ := hR nm i hs0
  have hfind1 : (s.recordReady p nm).findPIface nm =
      some { i with ready := insertOnce p i.ready } := by
    show (updatePIface nm (fun j => { j with ready := insertOnce p j.ready }) s.ifaces).find?
        (fun j => decide (j.name = nm)) = _
    rw [find?_updatePIface_same nm (fun j => { j with ready := insertOnce p j.ready })
        (fun j => rfl) s.ifaces]
    rw [show s.ifaces.find? (fun j => decide (j.name = nm)) = some i from hs0]
    rfl
  have hfind1' : ∀ nm', nm' ≠ nm →
      (s.recordReady p nm).findPIface nm' = s.findPIface nm' := by
    intro nm' hne
    show (updatePIface nm (fun j => { j with ready := insertOnce p j.ready }) s.ifaces).find?
        (fun j => decide (j.name = nm')) = _
    rw [find?_updatePIface_other nm nm' (fun j => { j with ready := insertOnce p j.ready })
        (fun j => rfl) hne s.ifaces]
    rfl
  have hquad1 : (s.recordReady p nm).ifaces.map pQuad = n₀.ifaces.map pQuad := by
    show (updatePIface nm (fun j => { j with ready := insertOnce p j.ready }) s.ifaces).map
        pQuad = _
    rw [map_pQuad_updatePIface nm (fun j => { j with ready := insertOnce p j.ready })
        (fun j => rfl) s.ifaces]
    exact hL
  have hslot1 : (s.recordReady p nm).slotCount = s.slotCount := by
    unfold PNode.slotCount
    exact slotCount_eq_of_quads _ _ (hquad1.trans hL.symm)
  have hreadysub : i.ready ⊆ insertOnce p i.ready := by
    intro x hx
    exact (insertOnce_mem p x i.ready).2 (Or.inr hx)
  have hready'nodup : (insertOnce p i.ready).Nodup := insertOnce_nodup p i.ready hrnd
  have hready'sub : insertOnce p i.ready ⊆ i.preds := by
    intro x hx
    rcases (insertOnce_mem p x i.ready).1 hx with rfl | hx2
    · exact hpi
    · exact hrsub hx2
  -- the common "component 2" facts, parameterized by the final readyIfaces
  have h2other : ∀ nm' j, nm' ≠ nm → (s.recordReady p nm).findPIface nm' = some j →
      j.ready.Nodup ∧ j.ready ⊆ j.preds ∧
        (j.name ∈ s.readyIfaces ↔ (j.preds ≠ [] ∧ j.preds ⊆ j.ready)) := by
    intro nm' j hne hj
    rw [hfind1' nm' hne] at hj
    exact hR nm' j hj
  rw [onContentReady_found s p nm { i with ready := insertOnce p i.ready } hfind1]
  split
  · -- threshold reached: onInterfaceReady fires
    rename_i hcond
    have hcond' : i.preds.length ≤ (insertOnce p i.ready).length := hcond
    have hpredsub' : i.preds ⊆ insertOnce p i.ready :=
      subset_of_nodup_subset_ge hready'nodup hready'sub hcond'
    rw [onInterfaceReady_eq,
      show (s.recordReady p nm).readyIfaces = s.readyIfaces from rfl, hslot1]
    have hriNodup : (insertOnce nm s.readyIfaces).Nodup :=
      insertOnce_nodup nm s.readyIfaces hN
    have h2B : ∀ nm' j, (s.recordReady p nm).findPIface nm' = some j →
        j.ready.Nodup ∧ j.ready ⊆ j.preds ∧
          (j.name ∈ insertOnce nm s.readyIfaces ↔ (j.preds ≠ [] ∧ j.preds ⊆ j.ready)) := by
      intro nm' j hj
      by_cases hne : nm' = nm
      · rw [hne] at hj
        rw [hfind1] at hj
        cases hj
        refine ⟨hready'nodup, hready'sub, ?_⟩
        constructor
        · intro _
          exact ⟨List.ne_nil_of_mem hpi, hpredsub'⟩
        · intro _
          exact (insertOnce_mem nm _ s.readyIfaces).2 (Or.inl hiname)
      · obtain ⟨ha, hb, hcf⟩ := h2other nm' j hne hj
        have hjname : j.name = nm' := by
          rw [hfind1' nm' hne] at hj
          simpa using List.find?_some hj
        refine ⟨ha, hb, ?_⟩
        rw [insertOnce_mem]
        constructor
        · rintro (hx | hx)
          · exact absurd (hjname ▸ hx) hne
          · exact hcf.1 hx
        · intro hx
          exact Or.inr (hcf.2 hx)
    have hMB : ∀ x ∈ insertOnce nm s.readyIfaces,
        ((s.recordReady p nm).findPIface x).isSome := by
      intro x hx
      rcases (insertOnce_mem nm x s.readyIfaces).1 hx with rfl | hx2
      · rw [hfind1]; rfl
      · by_cases hxe : x = nm
        · subst hxe; rw [hfind1]; rfl
        · rw [hfind1' x hxe]; exact hM x hx2
    split
    · -- canRun fires
      rename_i hcheck
      refine ⟨hquad1, h2B, hriNodup, hMB, ?_⟩
      show true = true ↔ (s.recordReady p nm).slotCount ≤ (insertOnce nm s.readyIfaces).length
      rw [hslot1]
      exact iff_of_true rfl hcheck
    · -- threshold for the node not reached: canRun stays
      rename_i hcheck
      refine ⟨hquad1, h2B, hriNodup, hMB, ?_⟩
      show s.canRun = true ↔ (s.recordReady p nm).slotCount ≤ (insertOnce nm s.readyIfaces).length
      rw [hslot1]
      constructor
      · intro h
        exact le_trans (hC.1 h) (insertOnce_length_le nm s.readyIfaces)
      · intro h
        exact absurd h hcheck
  · -- threshold not reached: nothing beyond the recorded predecessor changes
    rename_i hcond
    have hcond' : ¬ i.preds.length ≤ (insertOnce p i.ready).length := hcond
    have h2A : ∀ nm' j, (s.recordReady p nm).findPIface nm' = some j →
        j.ready.Nodup ∧ j.ready ⊆ j.preds ∧
          (j.name ∈ s.readyIfaces ↔ (j.preds ≠ [] ∧ j.preds ⊆ j.ready)) := by
      intro nm' j hj
      by_cases hne : nm' = nm
      · rw [hne] at hj
        rw [hfind1] at hj
        cases hj
        refine ⟨hready'nodup, hready'sub, ?_⟩
        rw [show ({ i with ready := insertOnce p i.ready } : PIface).name = nm from hiname]
        constructor
        · intro hmem
          obtain ⟨ha, hb⟩ := hriff.1 (hiname ▸ hmem)
          exact ⟨ha, fun x hx => hreadysub (hb hx)⟩
        · intro ⟨ha, hb⟩
          exact absurd (length_le_of_nodup_subset hpnd hb) hcond'
      · exact h2other nm' j hne hj
    have hMA : ∀ x ∈ s.readyIfaces, ((s.recordReady p nm).findPIface x).isSome := by
      intro x hx
      by_cases hxe : x = nm
      · subst hxe; rw [hfind1]; rfl
      · rw [hfind1' x hxe]; exact hM x hx
    refine ⟨hquad1, h2A, hN, hMA, ?_⟩
    show s.canRun = true ↔ _
    rw [hslot1]
    exact hC

theorem rinv_run (n₀ : PNode) (hv : n₀.valid = true) :
    ∀ (evs : List PEvent) (s : PNode), RInv n₀ s → PNode.validTrace n₀ evs = true →
      RInv n₀ (s.run evs) := by
  intro evs
  induction evs with
  | nil => intro s hs _; exact hs
  | cons e rest ih =>
    intro s hs ht
    unfold PNode.validTrace at ht
    simp only [List.all_cons, Bool.and_eq_true] at ht
    cases e with
    | signal p nm =>
      show RInv n₀ ((s.onContentReady p nm).run rest)
      exact ih (s.onContentReady p nm) (rinv_step n₀ s p nm hv hs ht.1) ht.2
    | removeEdge p nm =>
      have hfalse : PNode.validSignal n₀ (PEvent.removeEdge p nm) = false := rfl
      rw [hfalse] at ht
      exact absurd ht.1 (by simp)

theorem readiness_characterization (n₀ s : PNode) (hv : n₀.valid = true)
    (hinv : RInv n₀ s) : (s.canRun = true ↔ s.allSlotReady = true) := by
  obtain ⟨hL, hR, hN, hM, hC⟩ := hinv
  obtain ⟨hnd0, hall0, hslot0, -, -⟩ := valid_parts n₀ hv
  have hnames : s.ifaces.map PIface.name = n₀.ifaces.map PIface.name :=
    names_eq_of_quads _ _ hL
  have hnds : (s.ifaces.map PIface.name).Nodup := by rw [hnames]; exact hnd0
  have hvalids : ∀ i ∈ s.ifaces, i.preds.Nodup ∧
      (if (isInputKind i.kind && i.slot) = true then i.preds ≠ [] else i.preds = []) := by
    intro i hi
    have hmq : pQuad i ∈ s.ifaces.map pQuad := List.mem_map_of_mem pQuad hi
    rw [hL] at hmq
    obtain ⟨i₀, hi₀, hq⟩ := List.mem_map.1 hmq
    obtain ⟨-, hnd, hif⟩ := hall0 i₀ hi₀
    have hk : i₀.kind = i.kind := congrArg (fun q => q.2.1) hq
    have hs2 : i₀.slot = i.slot := congrArg (fun q => q.2.2.1) hq
    have hp : i₀.preds = i.preds := congrArg (fun q => q.2.2.2) hq
    rw [hk, hs2, hp] at hif
    rw [hp] at hnd
    exact ⟨hnd, hif⟩
  have hsnNodup : ((s.ifaces.filter
      (fun i => isInputKind i.kind && i.slot)).map PIface.name).Nodup := by
    exact List.Nodup.sublist (List.Sublist.map PIface.name (List.filter_sublist s.ifaces)) hnds
  have hsnLen : ((s.ifaces.filter
      (fun i => isInputKind i.kind && i.slot)).map PIface.name).length = s.slotCount := by
    simp [PNode.slotCount]
  have hri_sub : s.readyIfaces ⊆ (s.ifaces.filter
      (fun i => isInputKind i.kind && i.slot)).map PIface.name := by
    intro nm hmem
    have hsome := hM nm hmem
    cases hfind : s.findPIface nm with
    | none => rw [hfind] at hsome; simp at hsome
    | some i =>
      have hmemi : i ∈ s.ifaces := List.mem_of_find?_eq_some hfind
      have hinm : i.name = nm := by simpa using List.find?_some hfind
      obtain ⟨-, -, hiff⟩ := hR nm i hfind
      have hrhs := hiff.1 (hinm ▸ hmem)
      obtain ⟨hpnd, hif⟩ := hvalids i hmemi
      have hslot : (isInputKind i.kind && i.slot) = true := by
        by_contra hns
        rw [if_neg hns] at hif
        exact hrhs.1 hif
      exact hinm ▸ List.mem_map_of_mem PIface.name (List.mem_filter.2 ⟨hmemi, hslot⟩)
  constructor
  · intro hcr
    have hsn_sub : ((s.ifaces.filter
        (fun i => isInputKind i.kind && i.slot)).map PIface.name) ⊆ s.readyIfaces :=
      subset_of_nodup_subset_ge hN hri_sub (by rw [hsnLen]; exact hC.1 hcr)
    unfold PNode.allSlotReady
    rw [List.all_eq_true]
    intro i hmemi
    by_cases hslot : (isInputKind i.kind && i.slot) = true
    · have hnm : i.name ∈ s.readyIfaces :=
        hsn_sub (List.mem_map_of_mem PIface.name (List.mem_filter.2 ⟨hmemi, hslot⟩))
      have hfind := find?_self_of_nodup_names s.ifaces hnds i hmemi
      obtain ⟨-, -, hiff⟩ := hR i.name i hfind
      obtain ⟨-, hsub⟩ := hiff.1 hnm
      simp only [hslot, Bool.not_true, Bool.false_or, List.all_eq_true, decide_eq_true_eq]
      exact fun p hp => hsub hp
    · have : (isInputKind i.kind && i.slot) = false := by
        cases h : (isInputKind i.kind && i.slot)
        · rfl
        · exact absurd h hslot
      simp [this]
  · intro hasr
    have hsub2 : ((s.ifaces.filter
        (fun i => isInputKind i.kind && i.slot)).map PIface.name) ⊆ s.readyIfaces := by
      intro nm hmem
      obtain ⟨i, hif2, hinm⟩ := List.mem_map.1 hmem
      obtain ⟨hmemi, hslot⟩ := List.mem_filter.1 hif2
      unfold PNode.allSlotReady at hasr
      have hall := List.all_eq_true.1 hasr i hmemi
      simp only [hslot, Bool.not_true, Bool.false_or, List.all_eq_true,
        decide_eq_true_eq] at hall
      obtain ⟨hpnd, hifv⟩ := hvalids i hmemi
      rw [if_pos hslot] at hifv
      have hfind := find?_self_of_nodup_names s.ifaces hnds i hmemi
      obtain ⟨-, -, hiff⟩ := hR i.name i hfind
      have : i.name ∈ s.readyIfaces := hiff.2 ⟨hifv, fun p hp => hall p hp⟩
      exact hinm ▸ this
    apply hC.2
    calc s.slotCount
        = ((s.ifaces.filter (fun i => isInputKind i.kind && i.slot)).map PIface.name).length :=
          hsnLen.symm
      _ ≤ s.readyIfaces.length := length_le_of_nodup_subset hsnNodup hsub2

/-- C2 amended: across any admissible signal-only trace from a valid
initial state (interfaces with predecessors are exactly the input-slot
ones, each with at least one predecessor), the node's `canRun` event is
set via `onInterfaceReady` **iff** every input-slot interface has
recorded readiness from all of its predecessors.  With edge removal the
equivalence breaks, because readiness is only re-evaluated when a signal
arrives: removing a predecessor edge *after* the remaining predecessors
have signalled leaves the node blocked forever (second conjunct), while
removing it *before* they signal lowers the threshold so the remaining
signals alone do make the node runnable (the counterexample theorem
`readiness_remove_then_signal_runs`). -/
theorem readiness_iff (n : PNode) (evs : List PEvent)
    (hv : n.valid = true) (ht : n.validTrace evs = true) :
    ((n.run evs).canRun = true ↔ (n.run evs).allSlotReady = true) ∧
    (c2Node.run [PEvent.signal "P" "in", PEvent.removeEdge "Q" "in"]).canRun = false := by
  constructor
  · exact readiness_characterization n (n.run evs) hv
      (rinv_run n hv evs n (rinv_init n hv) ht)
  · decide

/-- Witness for C2: the full two-predecessor signal trace on the concrete
node makes it runnable, matching `allSlotReady`. -/
theorem readiness_iff_witness :
    ((c2Node.run [PEvent.signal "P" "in", PEvent.signal "Q" "in"]).canRun = true ↔
      (c2Node.run [PEvent.signal "P" "in", PEvent.signal "Q" "in"]).allSlotReady = true) ∧
    (c2Node.run [PEvent.signal "P" "in", PEvent.removeEdge "Q" "in"]).canRun = false :=
  readiness_iff c2Node [PEvent.signal "P" "in", PEvent.signal "Q" "in"]
    (by decide) (by decide)

/-! ## Claim C1: XML export / import round trip

`Flow.exportXml` (flow.py lines 245-287) builds a DOM document and
serialises it with `toprettyxml`; `Flow.importXml` (flow.py lines
190-243) re-parses with `parseString`.  Serialisation and parsing are
mutually inverse on the documents produced here, so the embedding works
with the document structure directly.  Attribute values keep their
types: `slot` is written as `"True"`/`"False"` and parsed with
`.lower() == 'true'`; graphical property values are the editor's int
positions, written with `"%s"` and read back with `utils.atoi`. -/

/-- An `interface` element: name, the `slot` attribute (present only for
input-like value interfaces), the `value` attribute (present only when
the slot flag is false), and the `successor` child elements in order. -/
structure XInterface where
  name : String
  slot : Option Bool
  value : Option String
  successors : List Ref
  deriving DecidableEq, Repr

/-- A `node` element: id and type attributes, `graphproperty` children
and `interface` children in order. -/
structure XNode where
  id : String
  typeName : String
  graphprops : List (String × Int)
  interfaces : List XInterface
  deriving DecidableEq, Repr

/-- `Interface.isValue` dispatch (flow.py lines 317-318, 623-624). -/
def isValueVariant (v : Variant) : Bool := decide (v = Variant.value)

/-- Export of one interface (flow.py lines 269-285). -/
def exportIface (i : Iface) : XInterface :=
  { name := i.name,
    slot := if isInputKind i.kind && isValueVariant i.variant then some i.slot else none,
    value :=
      if isInputKind i.kind && isValueVariant i.variant && !i.slot
      then some (i.value.getD "")
      else none,
    successors := i.successors }

/-- Export of one node (flow.py lines 254-285): id, fully qualified type
name, graphical properties and interfaces in order. -/
def exportNode (n : FNode) : XNode :=
  { id := n.id, typeName := n.typeName, graphprops := n.graphicalprops,
    interfaces := n.interfaces.map exportIface }

/-- `Flow.exportXml` (flow.py lines 245-287). -/
def Flow.exportXml (fl : Flow) : List XNode :=
  fl.nodes.map exportNode

/-- The interfaces a registered node class constructs in its `__init__`
(e.g. `ValueInputNode`, flow.py lines 720-723). -/
structure IfaceTemplate where
  name : String
  kind : Kind
  variant : Variant
  slot : Bool
  value : Option String
  deriving DecidableEq, Repr

/-- What a registered node class determines: its label and interfaces. -/
structure NodeTemplate where
  label : String
  ifaces : List IfaceTemplate
  deriving DecidableEq, Repr

/-- The type registry: `eval(classname)` over the plugin modules loaded
by `import_plugins` (flow.py line 199), modelled as a partial map from
fully qualified type name to the class's construction data. -/
def Registry := String → Option NodeTemplate

/-- A freshly constructed interface. -/
def IfaceTemplate.build (t : IfaceTemplate) : Iface :=
  { name := t.name, kind := t.kind, variant := t.variant, slot := t.slot,
    value := t.value, successors := [], predecessors := [] }

/-- `classobj(flow=flow, id=nodeid)` (flow.py line 212) followed by the
graphical-property replay (lines 215-219): `Node.__init__` (lines
419-430) draws a random id when the given one is empty and a flow is
attached. -/
def buildNode (t : NodeTemplate) (typeName : String) (fl : Flow) (nid : String)
    (props : List (String × Int)) : FNode :=
  { id := if nid = "" then randomId fl.nodeIds t.label else nid,
    typeName := typeName, label := t.label, incidence := 0,
    graphicalprops := props, interfaces := t.ifaces.map IfaceTemplate.build }

/-- First import pass, one node element (flow.py lines 201-220): resolve
the type name (`FlowParsingError` when unknown), construct the node,
replay graphical properties, `flow.addNode(node)`. -/
def importNode (R : Registry) (fl : Flow) (xn : XNode) : Except FErr Flow :=
  match R xn.typeName with
  | none => Except.error FErr.parsing
  | some t =>
    match fl.addNode (buildNode t xn.typeName fl xn.id xn.graphprops) with
    | (fl', none) => Except.ok fl'
    | (_, some e) => Except.error e

/-- First import pass over the document. -/
def importNodes (R : Registry) : Flow → List XNode → Except FErr Flow
  | fl, [] => Except.ok fl
  | fl, xn :: rest =>
    match importNode R fl xn with
    | Except.ok fl' => importNodes R fl' rest
    | Except.error e => Except.error e

/-- Second pass, one `successor` element (flow.py lines 234-241):
resolve the destination node and interface, set `dest.slot = True`, then
`src.addSuccessor(dest)` (with its compatibility check). -/
def importSucc (fl : Flow) (src e : Ref) : Except FErr Flow :=
  match fl.findNode? e.nodeId with
  | none => Except.error FErr.notFound
  | some dnode =>
    match dnode.findInterface? e.ifaceName with
    | none => Except.error FErr.ifaceNotFound
    | some _ =>
      match (fl.updateIface e (fun i => { i with slot := true })).addSuccessor src e with
      | (fl2, none) => Except.ok fl2
      | (_, some err) => Except.error err

def importSuccs : Flow → Ref → List Ref → Except FErr Flow
  | fl, _, [] => Except.ok fl
  | fl, src, e :: rest =>
    match importSucc fl src e with
    | Except.ok fl' => importSuccs fl' src rest
    | Except.error err => Except.error err

/-- Second pass, one `interface` element (flow.py lines 226-241):
`src.slot = True`; for input value interfaces the `slot` attribute is
parsed (`'' .lower() == 'true'` is false for a missing attribute) and,
when false, the `value` attribute (missing attribute reads as `''`) is
stored; then the successor elements are replayed. -/
def importIface (fl : Flow) (nid : String) (xi : XInterface) : Except FErr Flow :=
  match fl.findNode? nid with
  | none => Except.error FErr.notFound
  | some node =>
    match node.findInterface? xi.name with
    | none => Except.error FErr.ifaceNotFound
    | some src =>
      let r : Ref := ⟨nid, xi.name⟩
      let fl1 := fl.updateIface r (fun i => { i with slot := true })
      let fl2 :=
        if isInputKind src.kind && isValueVariant src.variant then
          let sl := xi.slot.getD false
          let fl2a := fl1.updateIface r (fun i => { i with slot := sl })
          if sl then fl2a
          else fl2a.updateIface r (fun i => { i with value := some (xi.value.getD "") })
        else fl1
      importSuccs fl2 r xi.successors

def importIfaces : Flow → String → List XInterface → Except FErr Flow
  | fl, _, [] => Except.ok fl
  | fl, nid, xi :: rest =>
    match importIface fl nid xi with
    | Except.ok fl' => importIfaces fl' nid rest
    | Except.error err => Except.error err

/-- Second pass, one node element (flow.py lines 223-241): look the node
up again by id, then process its interface elements. -/
def importLinksNode (fl : Flow) (xn : XNode) : Except FErr Flow :=
  match fl.findNode? xn.id with
  | none => Except.error FErr.notFound
  | some _ => importIfaces fl xn.id xn.interfaces

def importLinks : Flow → List XNode → Except FErr Flow
  | fl, [] => Except.ok fl
  | fl, xn :: rest =>
    match importLinksNode fl xn with
    | Except.ok fl' => importLinks fl' rest
    | Except.error err => Except.error err

/-- `Flow.importXml` (flow.py lines 190-243): build the nodes, replay
slots/values/edges, then `sortNodesByIncidence` (whose recursion
terminates only on acyclic flows in Python; the embedding's fuel
parameter stands for that recursion). -/
def importXml (R : Registry) (doc : List XNode) (fuel : Nat) : Except FErr Flow :=
  match importNodes R { modified := false, nodes := [] } doc with
  | Except.error e => Except.error e
  | Except.ok fl =>
    match importLinks fl doc with
    | Except.error e => Except.error e
    | Except.ok fl2 => Except.ok (fl2.sortNodesByIncidence fuel)

/-! ### Validity of a flow (the hypotheses of the round-trip claim) -/

/-- The node's interfaces have the names, kinds and variants its class
declares (slot and value may have been edited afterwards). -/
def templateMatches (t : NodeTemplate) (n : FNode) : Bool :=
  decide (t.ifaces.length = n.interfaces.length)
  && (List.zip t.ifaces n.interfaces).all (fun p =>
       decide (p.1.name = p.2.name) && decide (p.1.kind = p.2.kind)
       && decide (p.1.variant = p.2.variant))

/-- The node ids a node's interfaces draw predecessors from. -/
def nodePredIds (n : FNode) : List String :=
  (n.interfaces.map (fun i => i.predecessors.map Ref.nodeId)).flatten

/-- Kahn-style acyclicity check on the node graph. -/
def isAcyclicAux : Nat → List FNode → Bool
  | 0, remaining => remaining.isEmpty
  | fuel + 1, remaining =>
    if remaining.isEmpty then true
    else
      let ids := remaining.map FNode.id
      let removable := remaining.filter
        (fun n => (nodePredIds n).all (fun x => decide (x ∉ ids)))
      if removable.isEmpty then false
      else isAcyclicAux fuel (remaining.filter
        (fun n => !((nodePredIds n).all (fun x => decide (x ∉ ids)))))

def Flow.isAcyclic (f : Flow) : Bool := isAcyclicAux f.nodes.length f.nodes

/-- A valid flow built from registered node types: nonempty unique node
ids; every node's type registered with matching interface skeletons;
unique interface names per node; duplicate-free symmetric edge lists
whose two endpoints satisfy the compatibility check; connected
input-value interfaces are slot-bound and literal-valued ones carry a
string; and the node graph is acyclic (the import-time incidence
recursion of the Python code terminates only then). -/
def ValidFlow (R : Registry) (f : Flow) : Bool :=
  decide ((f.nodes.map FNode.id).Nodup)
  && f.isAcyclic
  && f.nodes.all (fun n =>
       decide (n.id ≠ "")
       && (match R n.typeName with
           | none => false
           | some t => templateMatches t n)
       && decide ((n.interfaces.map Iface.name).Nodup)
       && n.interfaces.all (fun i =>
            decide i.successors.Nodup && decide i.predecessors.Nodup
            && i.successors.all (fun e =>
                 match f.ifaceAt? e with
                 | some d =>
                     decide ((⟨n.id, i.name⟩ : Ref) ∈ d.predecessors)
                     && isCompatible ⟨e, d.kind, d.variant⟩
                          ⟨⟨n.id, i.name⟩, i.kind, i.variant⟩
                 | none => false)
            && i.predecessors.all (fun pr =>
                 match f.ifaceAt? pr with
                 | some ps => decide ((⟨n.id, i.name⟩ : Ref) ∈ ps.successors)
                 | none => false)
            && (if isInputKind i.kind && isValueVariant i.variant then
                  (i.predecessors.isEmpty || i.slot) && (i.slot || i.value.isSome)
                else true)))

/-! ### What the round trip preserves -/

/-- The imported interface carries the same kind and variant, the same
slot flag and — when the slot flag is off — the same literal value, the
same successor list, and the same predecessor set. -/
def ifaceMatches (orig imp : Iface) : Bool :=
  decide (orig.kind = imp.kind) && decide (orig.variant = imp.variant)
  && (if isInputKind orig.kind && isValueVariant orig.variant then
        decide (orig.slot = imp.slot) && (orig.slot || decide (orig.value = imp.value))
      else true)
  && decide (orig.successors = imp.successors)
  && orig.predecessors.all (fun p => decide (p ∈ imp.predecessors))
  && imp.predecessors.all (fun p => decide (p ∈ orig.predecessors))

/-- The imported node carries the same type name and graphical
properties, and every original interface matches by name. -/
def nodeMatches (orig imp : FNode) : Bool :=
  decide (orig.typeName = imp.typeName)
  && decide (orig.graphicalprops = imp.graphicalprops)
  && orig.interfaces.all (fun i =>
       match imp.findInterface? i.name with
       | some i' => ifaceMatches i i'
       | none => false)

/-- The round-trip correspondence of claim C1: the (id, type) multiset of
nodes is preserved, and per node id all compared properties match. -/
def roundTripMatches (f g : Flow) : Bool :=
  decide (List.Perm (f.nodes.map (fun n => (n.id, n.typeName)))
    (g.nodes.map (fun n => (n.id, n.typeName))))
  && f.nodes.all (fun n =>
       match g.findNode? n.id with
       | some n' => nodeMatches n n'
       | none => false)

/-! ### The second import pass as a sequence of single-interface updates

Every mutation the second pass performs is `Flow.updateIface` at one
address; the pass is therefore analysed as the application of a statically
known operation list. -/

/-- One primitive mutation: update the interface at one address. -/
def POp := Ref × (Iface → Iface)

def applyOps (fl : Flow) (ops : List POp) : Flow :=
  ops.foldl (fun fl o => fl.updateIface o.1 o.2) fl

/-- The view of an operation sequence from one address. -/
def ifaceFold (r : Ref) (ops : List POp) (oi : Option Iface) : Option Iface :=
  ops.foldl (fun acc o => if o.1 = r then acc.map o.2 else acc) oi

theorem applyOps_append (fl : Flow) (ops₁ ops₂ : List POp) :
    applyOps fl (ops₁ ++ ops₂) = applyOps (applyOps fl ops₁) ops₂ :=
  List.foldl_append _ _ _ _

theorem ifaceFold_append (r : Ref) (ops₁ ops₂ : List POp) (oi : Option Iface) :
    ifaceFold r (ops₁ ++ ops₂) oi = ifaceFold r ops₂ (ifaceFold r ops₁ oi) :=
  List.foldl_append _ _ _ _

theorem applyOps_cons (fl : Flow) (o : POp) (ops : List POp) :
    applyOps fl (o :: ops) = applyOps (fl.updateIface o.1 o.2) ops := rfl

theorem ifaceFold_cons (r : Ref) (o : POp) (ops : List POp) (oi : Option Iface) :
    ifaceFold r (o :: ops) oi =
      ifaceFold r ops (if o.1 = r then oi.map o.2 else oi) := rfl

theorem ifaceFold_cons_hit (r : Ref) (o : POp) (h : o.1 = r) (ops : List POp)
    (oi : Option Iface) : ifaceFold r (o :: ops) oi = ifaceFold r ops (oi.map o.2) := by
  rw [ifaceFold_cons, if_pos h]

theorem ifaceFold_cons_miss (r : Ref) (o : POp) (h : o.1 ≠ r) (ops : List POp)
    (oi : Option Iface) : ifaceFold r (o :: ops) oi = ifaceFold r ops oi := by
  rw [ifaceFold_cons, if_neg h]

/-- Operation lists that never rename an interface. -/
def NamePreserving (ops : List POp) : Prop :=
  ∀ o ∈ ops, ∀ i : Iface, (o.2 i).name = i.name

theorem ifaceAt?_applyOps (ops : List POp) (hops : NamePreserving ops) (r : Ref) :
    ∀ fl : Flow, (applyOps fl ops).ifaceAt? r = ifaceFold r ops (fl.ifaceAt? r) := by
  induction ops with
  | nil => intro fl; rfl
  | cons o rest ih =>
    intro fl
    have hname : ∀ i : Iface, (o.2 i).name = i.name := hops o (List.mem_cons_self _ _)
    have hrest : NamePreserving rest := fun o' ho' => hops o' (List.mem_cons_of_mem _ ho')
    rw [applyOps_cons, ifaceFold_cons, ih hrest (fl.updateIface o.1 o.2)]
    by_cases h : o.1 = r
    · rw [if_pos h, ← h, ifaceAt?_updateIface_same fl o.1 o.2 hname]
    · rw [if_neg h, ifaceAt?_updateIface_other fl o.1 r o.2 hname (fun hc => h hc.symm)]

/-- If no operation targets `r`, the per-address view is the identity. -/
theorem ifaceFold_skip (r : Ref) (ops : List POp) (hops : ∀ o ∈ ops, o.1 ≠ r)
    (oi : Option Iface) : ifaceFold r ops oi = oi := by
  induction ops generalizing oi with
  | nil => rfl
  | cons o rest ih =>
    rw [ifaceFold_cons, if_neg (hops o (List.mem_cons_self _ _))]
    exact ih (fun o' ho' => hops o' (List.mem_cons_of_mem _ ho')) oi

/-! ### Skeletons: what the second pass never changes -/

/-- The per-interface skeleton: name, kind, variant. -/
def ifaceSkel (i : Iface) : String × Kind × Variant := (i.name, i.kind, i.variant)

/-- The per-node skeleton. -/
def nodeSkel (n : FNode) : String × List (String × Kind × Variant) :=
  (n.id, n.interfaces.map ifaceSkel)

def Flow.skel (fl : Flow) : List (String × List (String × Kind × Variant)) :=
  fl.nodes.map nodeSkel

/-- The node-level data the second pass never touches. -/
def nodeOuter (n : FNode) : String × String × List (String × Int) :=
  (n.id, n.typeName, n.graphicalprops)

theorem map_ifaceSkel_updateIfaceList (nm : String) (g : Iface → Iface)
    (hg : ∀ i, ifaceSkel (g i) = ifaceSkel i) :
    ∀ l : List Iface, (updateIfaceList nm g l).map ifaceSkel = l.map ifaceSkel := by
  intro l
  induction l with
  | nil => rfl
  | cons i rest ih =>
    by_cases h1 : i.name = nm
    · simp [updateIfaceList, h1, hg i]
    · simp [updateIfaceList, h1, ih]

theorem map_nodeSkel_updateNodeList (nid : String) (g : FNode → FNode)
    (hg : ∀ n, nodeSkel (g n) = nodeSkel n) :
    ∀ l : List FNode, (updateNodeList nid g l).map nodeSkel = l.map nodeSkel := by
  intro l
  induction l with
  | nil => rfl
  | cons n rest ih =>
    by_cases h1 : n.id = nid
    · simp [updateNodeList, h1, hg n]
    · simp [updateNodeList, h1, ih]

theorem map_nodeOuter_updateNodeList (nid : String) (g : FNode → FNode)
    (hg : ∀ n, nodeOuter (g n) = nodeOuter n) :
    ∀ l : List FNode, (updateNodeList nid g l).map nodeOuter = l.map nodeOuter := by
  intro l
  induction l with
  | nil => rfl
  | cons n rest ih =>
    by_cases h1 : n.id = nid
    · simp [updateNodeList, h1, hg n]
    · simp [updateNodeList, h1, ih]

theorem skel_updateIface (fl : Flow) (r : Ref) (g : Iface → Iface)
    (hg : ∀ i, ifaceSkel (g i) = ifaceSkel i) : (fl.updateIface r g).skel = fl.skel := by
  show (updateNodeList r.nodeId _ fl.nodes).map nodeSkel = _
  apply map_nodeSkel_updateNodeList
  intro n
  show ((n.updateIface r.ifaceName g).id, _) = _
  unfold FNode.updateIface nodeSkel
  rw [map_ifaceSkel_updateIfaceList r.ifaceName g hg n.interfaces]

theorem nodeOuter_updateIface (fl : Flow) (r : Ref) (g : Iface → Iface) :
    (fl.updateIface r g).nodes.map nodeOuter = fl.nodes.map nodeOuter := by
  show (updateNodeList r.nodeId _ fl.nodes).map nodeOuter = _
  apply map_nodeOuter_updateNodeList
  intro n
  rfl

/-- Operation lists that only change slot, value, successors or
predecessors. -/
def SkelPreserving (ops : List POp) : Prop :=
  ∀ o ∈ ops, ∀ i : Iface, ifaceSkel (o.2 i) = ifaceSkel i

theorem skel_applyOps (ops : List POp) (hops : SkelPreserving ops) :
    ∀ fl : Flow, (applyOps fl ops).skel = fl.skel := by
  induction ops with
  | nil => intro fl; rfl
  | cons o rest ih =>
    intro fl
    rw [applyOps_cons, ih (fun o' ho' => hops o' (List.mem_cons_of_mem _ ho')),
      skel_updateIface fl o.1 o.2 (hops o (List.mem_cons_self _ _))]

theorem nodeOuter_applyOps (ops : List POp) :
    ∀ fl : Flow, (applyOps fl ops).nodes.map nodeOuter = fl.nodes.map nodeOuter := by
  induction ops with
  | nil => intro fl; rfl
  | cons o rest ih =>
    intro fl
    rw [applyOps_cons, ih, nodeOuter_updateIface]

theorem skelPreserving_of_namePreserving :
    ∀ ops : List POp, SkelPreserving ops → NamePreserving ops :=
  fun _ h o ho i => congrArg (fun q => q.1) (h o ho i)

/-! ### Lookups through equal skeletons -/

theorem find?_map_nodeSkel (nid : String) :
    ∀ l₁ l₂ : List FNode, l₁.map nodeSkel = l₂.map nodeSkel →
      (l₁.find? (fun n => decide (n.id = nid))).map nodeSkel =
        (l₂.find? (fun n => decide (n.id = nid))).map nodeSkel := by
  intro l₁
  induction l₁ with
  | nil =>
    intro l₂ h
    cases l₂ with
    | nil => rfl
    | cons b t => simp at h
  | cons a t ih =>
    intro l₂ h
    cases l₂ with
    | nil => simp at h
    | cons b t₂ =>
      simp only [List.map_cons, List.cons.injEq] at h
      have hn : a.id = b.id := congrArg Prod.fst h.1
      by_cases hx : a.id = nid
      · have hbx : b.id = nid := hn ▸ hx
        simp [List.find?_cons, hx, hbx, h.1]
      · have hbx : ¬ b.id = nid := hn ▸ hx
        simp only [List.find?_cons, hx, hbx, decide_eq_false, Bool.false_eq_true]
        exact ih t₂ h.2

theorem find?_map_ifaceSkel (nm : String) :
    ∀ l₁ l₂ : List Iface, l₁.map ifaceSkel = l₂.map ifaceSkel →
      (l₁.find? (fun i => decide (i.name = nm))).map ifaceSkel =
        (l₂.find? (fun i => decide (i.name = nm))).map ifaceSkel := by
  intro l₁
  induction l₁ with
  | nil =>
    intro l₂ h
    cases l₂ with
    | nil => rfl
    | cons b t => simp at h
  | cons a t ih =>
    intro l₂ h
    cases l₂ with
    | nil => simp at h
    | cons b t₂ =>
      simp only [List.map_cons, List.cons.injEq] at h
      have hn : a.name = b.name := congrArg Prod.fst h.1
      by_cases hx : a.name = nm
      · have hbx : b.name = nm := hn ▸ hx
        simp [List.find?_cons, hx, hbx, h.1]
      · have hbx : ¬ b.name = nm := hn ▸ hx
        simp only [List.find?_cons, hx, hbx, decide_eq_false, Bool.false_eq_true]
        exact ih t₂ h.2

theorem ifaceAt?_map_skel (G G' : Flow) (h : G.skel = G'.skel) (r : Ref) :
    (G.ifaceAt? r).map ifaceSkel = (G'.ifaceAt? r).map ifaceSkel := by
  unfold Flow.ifaceAt?
  have hn := find?_map_nodeSkel r.nodeId G.nodes G'.nodes h
  cases h1 : G.findNode? r.nodeId with
  | none =>
    rw [show G.nodes.find? (fun n => decide (n.id = r.nodeId)) = none from h1] at hn
    cases h2 : G'.findNode? r.nodeId with
    | none => rfl
    | some m =>
      rw [show G'.nodes.find? (fun n => decide (n.id = r.nodeId)) = some m from h2] at hn
      simp at hn
  | some m =>
    rw [show G.nodes.find? (fun n => decide (n.id = r.nodeId)) = some m from h1] at hn
    cases h2 : G'.findNode? r.nodeId with
    | none =>
      rw [show G'.nodes.find? (fun n => decide (n.id = r.nodeId)) = none from h2] at hn
      simp at hn
    | some m' =>
      rw [show G'.nodes.find? (fun n => decide (n.id = r.nodeId)) = some m' from h2] at hn
      simp only [Option.map_some'] at hn
      have hskel : nodeSkel m = nodeSkel m' := Option.some.inj hn
      have hii : m.interfaces.map ifaceSkel = m'.interfaces.map ifaceSkel :=
        congrArg Prod.snd hskel
      simp only [Option.some_bind]
      exact find?_map_ifaceSkel r.ifaceName m.interfaces m'.interfaces hii

theorem ifaceAt?_of_skel {G f : Flow} (h : G.skel = f.skel) {r : Ref} {i : Iface}
    (hf : f.ifaceAt? r = some i) :
    ∃ j, G.ifaceAt? r = some j ∧ ifaceSkel j = ifaceSkel i := by
  have hmap := ifaceAt?_map_skel G f h r
  rw [hf] at hmap
  cases hG : G.ifaceAt? r with
  | none => rw [hG] at hmap; simp at hmap
  | some j =>
    rw [hG] at hmap
    simp only [Option.map_some'] at hmap
    exact ⟨j, rfl, Option.some.inj hmap⟩

theorem lookup_pair_of_ifaceAt? {G : Flow} {r : Ref} {j : Iface}
    (h : G.ifaceAt? r = some j) :
    ∃ m, G.findNode? r.nodeId = some m ∧ m.findInterface? r.ifaceName = some j := by
  unfold Flow.ifaceAt? at h
  cases hm : G.findNode? r.nodeId with
  | none => rw [hm] at h; simp at h
  | some m =>
    rw [hm] at h
    simp only [Option.some_bind] at h
    exact ⟨m, rfl, h⟩

theorem infoAt?_of_skel {G f : Flow} (h : G.skel = f.skel) {r : Ref} {i : Iface}
    (hf : f.ifaceAt? r = some i) :
    G.infoAt? r = some ⟨r, i.kind, i.variant⟩ := by
  obtain ⟨j, hj, hskel⟩ := ifaceAt?_of_skel h hf
  unfold Flow.infoAt?
  rw [hj]
  have hk : j.kind = i.kind := congrArg (fun q => q.2.1) hskel
  have hvv : j.variant = i.variant := congrArg (fun q => q.2.2) hskel
  simp [hk, hvv]

/-! ### The operations the second pass performs, statically computed
from the original flow being re-imported -/

def slotTrueOp (r : Ref) : POp := (r, fun i => { i with slot := true })

def setSlotOp (r : Ref) (b : Bool) : POp := (r, fun i => { i with slot := b })

def setValueOp (r : Ref) (v : String) : POp := (r, fun i => { i with value := some v })

def addSuccOp (r e : Ref) : POp := (r, fun i => { i with successors := i.successors ++ [e] })

def addPredOp (r s : Ref) : POp := (r, fun i => { i with predecessors := i.predecessors ++ [s] })

/-- The slot/value replay `importIface` performs for the element
`exportIface i` before its successor elements. -/
def u1ops (nid : String) (i : Iface) : List POp :=
  slotTrueOp ⟨nid, i.name⟩ ::
    (if isInputKind i.kind && isValueVariant i.variant then
       setSlotOp ⟨nid, i.name⟩ i.slot ::
         (if i.slot then []
          else [setValueOp ⟨nid, i.name⟩ (i.value.getD "")])
     else [])

/-- The replay of one `successor` element: destination slot set, then the
symmetric append of `addSuccessor`. -/
def edgeOps (src e : Ref) : List POp := [slotTrueOp e, addSuccOp src e, addPredOp e src]

def ifaceOps (nid : String) (i : Iface) : List POp :=
  u1ops nid i ++ (i.successors.map (edgeOps ⟨nid, i.name⟩)).flatten

def nodeOps (n : FNode) : List POp :=
  (n.interfaces.map (ifaceOps n.id)).flatten

def flowOpsOf (ns : List FNode) : List POp :=
  (ns.map nodeOps).flatten

theorem skelPreserving_append {ops₁ ops₂ : List POp} (h₁ : SkelPreserving ops₁)
    (h₂ : SkelPreserving ops₂) : SkelPreserving (ops₁ ++ ops₂) := by
  intro o ho
  rcases List.mem_append.1 ho with h | h
  exacts [h₁ o h, h₂ o h]

theorem skelPreserving_flatten {l : List (List POp)} (h : ∀ ops ∈ l, SkelPreserving ops) :
    SkelPreserving l.flatten := by
  intro o ho
  obtain ⟨ops, hops, hmem⟩ := List.mem_flatten.1 ho
  exact h ops hops o hmem

theorem skelPreserving_u1ops (nid : String) (i : Iface) : SkelPreserving (u1ops nid i) := by
  intro o ho j
  unfold u1ops at ho
  rcases List.mem_cons.1 ho with h | h
  · subst h; rfl
  split at h
  · rcases List.mem_cons.1 h with h' | h'
    · subst h'; rfl
    split at h'
    · simp at h'
    rcases List.mem_cons.1 h' with h'' | h''
    · subst h''; rfl
    simp at h''
  · simp at h

theorem u1ops_targets (nid : String) (i : Iface) :
    ∀ o ∈ u1ops nid i, o.1 = (⟨nid, i.name⟩ : Ref) := by
  intro o ho
  unfold u1ops at ho
  rcases List.mem_cons.1 ho with h | h
  · subst h; rfl
  split at h
  · rcases List.mem_cons.1 h with h' | h'
    · subst h'; rfl
    split at h'
    · simp at h'
    rcases List.mem_cons.1 h' with h'' | h''
    · subst h''; rfl
    simp at h''
  · simp at h

theorem skelPreserving_edgeOps (src e : Ref) : SkelPreserving (edgeOps src e) := by
  intro o ho j
  unfold edgeOps at ho
  rcases List.mem_cons.1 ho with h | h
  · subst h; rfl
  rcases List.mem_cons.1 h with h' | h'
  · subst h'; rfl
  rcases List.mem_cons.1 h' with h'' | h''
  · subst h''; rfl
  simp at h''

theorem edgeOps_targets (src e : Ref) :
    ∀ o ∈ edgeOps src e, o.1 = e ∨ o.1 = src := by
  intro o ho
  unfold edgeOps at ho
  rcases List.mem_cons.1 ho with h | h
  · subst h; exact Or.inl rfl
  rcases List.mem_cons.1 h with h' | h'
  · subst h'; exact Or.inr rfl
  rcases List.mem_cons.1 h' with h'' | h''
  · subst h''; exact Or.inl rfl
  simp at h''

theorem skelPreserving_ifaceOps (nid : String) (i : Iface) :
    SkelPreserving (ifaceOps nid i) :=
  skelPreserving_append (skelPreserving_u1ops nid i)
    (skelPreserving_flatten (by
      intro ops hops
      obtain ⟨e, _, rfl⟩ := List.mem_map.1 hops
      exact skelPreserving_edgeOps _ e))

theorem skelPreserving_nodeOps (n : FNode) : SkelPreserving (nodeOps n) :=
  skelPreserving_flatten (by
    intro ops hops
    obtain ⟨i, _, rfl⟩ := List.mem_map.1 hops
    exact skelPreserving_ifaceOps n.id i)

theorem skelPreserving_flowOpsOf (ns : List FNode) : SkelPreserving (flowOpsOf ns) :=
  skelPreserving_flatten (by
    intro ops hops
    obtain ⟨n, _, rfl⟩ := List.mem_map.1 hops
    exact skelPreserving_nodeOps n)

/-! ### Per-address evaluation of the operation lists -/

theorem isEmptyAppend {α : Type} (l l' : List α) :
    (l ++ l').isEmpty = (l.isEmpty && l'.isEmpty) := by
  cases l <;> cases l' <;> rfl

/-- The slot/value replay at its own address. -/
theorem ifaceFold_u1ops (nid : String) (i j : Iface) :
    ifaceFold (⟨nid, i.name⟩ : Ref) (u1ops nid i) (some j) =
      some { j with
        slot := if isInputKind i.kind && isValueVariant i.variant then i.slot else true,
        value := if isInputKind i.kind && isValueVariant i.variant && !i.slot
                 then some (i.value.getD "") else j.value } := by
  by_cases hc : (isInputKind i.kind && isValueVariant i.variant) = true
  · by_cases hs : i.slot = true
    · rw [show u1ops nid i = [slotTrueOp ⟨nid, i.name⟩, setSlotOp ⟨nid, i.name⟩ i.slot]
          from by simp [u1ops, hc, hs],
        ifaceFold_cons_hit ⟨nid, i.name⟩ _ rfl, ifaceFold_cons_hit ⟨nid, i.name⟩ _ rfl]
      simp [slotTrueOp, setSlotOp, ifaceFold, hc, hs]
    · rw [show u1ops nid i = [slotTrueOp ⟨nid, i.name⟩, setSlotOp ⟨nid, i.name⟩ i.slot,
            setValueOp ⟨nid, i.name⟩ (i.value.getD "")]
          from by simp [u1ops, hc, hs],
        ifaceFold_cons_hit ⟨nid, i.name⟩ _ rfl, ifaceFold_cons_hit ⟨nid, i.name⟩ _ rfl,
        ifaceFold_cons_hit ⟨nid, i.name⟩ _ rfl]
      simp [slotTrueOp, setSlotOp, setValueOp, ifaceFold, hc, hs]
  · rw [show u1ops nid i = [slotTrueOp ⟨nid, i.name⟩] from by simp [u1ops, hc],
      ifaceFold_cons_hit ⟨nid, i.name⟩ _ rfl]
    simp [slotTrueOp, ifaceFold, hc]

/-- The own edges of an interface, replayed at its own address, append
the successor list; nothing else at that address changes (each edge's
other two operations target the destination). -/
theorem ifaceFold_own_edges (r : Ref) (S : List Ref) (hS : ∀ e ∈ S, e ≠ r) :
    ∀ j : Iface, ifaceFold r ((S.map (edgeOps r)).flatten) (some j) =
      some { j with successors := j.successors ++ S } := by
  induction S with
  | nil => intro j; simp [ifaceFold]
  | cons e S' ih =>
    intro j
    have he : e ≠ r := hS e (List.mem_cons_self _ _)
    rw [List.map_cons, List.flatten_cons, ifaceFold_append]
    have h1 : ifaceFold r (edgeOps r e) (some j) =
        some { j with successors := j.successors ++ [e] } := by
      show ifaceFold r (slotTrueOp e :: addSuccOp r e :: addPredOp e r :: []) (some j) = _
      rw [ifaceFold_cons_miss r _ he, ifaceFold_cons_hit r _ rfl, ifaceFold_cons_miss r _ he]
      rfl
    rw [h1, ih (fun e' he' => hS e' (List.mem_cons_of_mem _ he'))]
    simp [List.append_assoc]

/-- The sources among `i.successors` that point at `r`, tagged with `i`'s
own address. -/
def edgeSrcsOfIface (r : Ref) (nid : String) (i : Iface) : List Ref :=
  (i.successors.filter (fun e => decide (e = r))).map (fun _ => (⟨nid, i.name⟩ : Ref))

def edgeSrcsOfNode (r : Ref) (nid : String) (js : List Iface) : List Ref :=
  (js.map (edgeSrcsOfIface r nid)).flatten

def edgeSrcsTo (r : Ref) (ns : List FNode) : List Ref :=
  (ns.map (fun m => edgeSrcsOfNode r m.id m.interfaces)).flatten

/-- A foreign interface's edge replay, observed at `r`: each edge into `r`
sets the slot and appends the source to the predecessors. -/
theorem ifaceFold_foreign_edges (r src : Ref) (hsrc : src ≠ r) (S : List Ref) :
    ∀ j : Iface, ifaceFold r ((S.map (edgeOps src)).flatten) (some j) =
      some { j with
        slot := if (S.filter (fun e => decide (e = r))).isEmpty then j.slot else true,
        predecessors := j.predecessors ++
          (S.filter (fun e => decide (e = r))).map (fun _ => src) } := by
  induction S with
  | nil => intro j; simp [ifaceFold]
  | cons e S' ih =>
    intro j
    rw [List.map_cons, List.flatten_cons, ifaceFold_append]
    by_cases he : e = r
    · subst he
      have h1 : ifaceFold e (edgeOps src e) (some j) =
          some { j with slot := true, predecessors := j.predecessors ++ [src] } := by
        show ifaceFold e (slotTrueOp e :: addSuccOp src e :: addPredOp e src :: []) (some j) = _
        rw [ifaceFold_cons_hit e _ rfl, ifaceFold_cons_miss e _ hsrc, ifaceFold_cons_hit e _ rfl]
        rfl
      rw [h1, ih]
      by_cases h2 : (S'.filter (fun x => decide (x = e))).isEmpty = true <;>
        simp [List.filter_cons, h2, List.append_assoc]
    · have h1 : ifaceFold r (edgeOps src e) (some j) = some j := by
        apply ifaceFold_skip
        intro o ho
        rcases edgeOps_targets src e o ho with h | h
        · rw [h]; exact he
        · rw [h]; exact hsrc
      rw [h1, ih]
      simp [List.filter_cons, he]

/-- A whole foreign interface, observed at `r`. -/
theorem ifaceFold_foreign_iface (r : Ref) (nid : String) (i : Iface)
    (hsrc : (⟨nid, i.name⟩ : Ref) ≠ r) (j : Iface) :
    ifaceFold r (ifaceOps nid i) (some j) =
      some { j with
        slot := if (edgeSrcsOfIface r nid i).isEmpty then j.slot else true,
        predecessors := j.predecessors ++ edgeSrcsOfIface r nid i } := by
  unfold ifaceOps
  rw [ifaceFold_append,
    ifaceFold_skip r (u1ops nid i) (fun o ho => by rw [u1ops_targets nid i o ho]; exact hsrc),
    ifaceFold_foreign_edges r _ hsrc i.successors j]
  rw [show (edgeSrcsOfIface r nid i).isEmpty
      = (i.successors.filter (fun e => decide (e = r))).isEmpty from by
    unfold edgeSrcsOfIface
    cases i.successors.filter (fun e => decide (e = r)) <;> rfl]
  rfl

/-- An interface none of whose operations can touch `r`. -/
theorem ifaceOps_skip (r : Ref) (nid : String) (i : Iface)
    (hown : (⟨nid, i.name⟩ : Ref) ≠ r) (hsucc : ∀ e ∈ i.successors, e ≠ r)
    (oi : Option Iface) : ifaceFold r (ifaceOps nid i) oi = oi := by
  apply ifaceFold_skip
  intro o ho
  unfold ifaceOps at ho
  rcases List.mem_append.1 ho with h | h
  · rw [u1ops_targets nid i o h]; exact hown
  · obtain ⟨ops, hops, hmem⟩ := List.mem_flatten.1 h
    obtain ⟨e, he, rfl⟩ := List.mem_map.1 hops
    rcases edgeOps_targets _ _ o hmem with h1 | h1
    · rw [h1]; exact hsucc e he
    · rw [h1]; exact hown

/-- A whole foreign node, observed at `r`. -/
theorem ifaceFold_foreign_node (r : Ref) (nid : String) (hnid : nid ≠ r.nodeId) :
    ∀ (js : List Iface) (j : Iface),
      ifaceFold r ((js.map (ifaceOps nid)).flatten) (some j) =
        some { j with
          slot := if (edgeSrcsOfNode r nid js).isEmpty then j.slot else true,
          predecessors := j.predecessors ++ edgeSrcsOfNode r nid js } := by
  intro js
  induction js with
  | nil => intro j; simp [ifaceFold, edgeSrcsOfNode]
  | cons i js' ih =>
    intro j
    have hown : (⟨nid, i.name⟩ : Ref) ≠ r := fun hc => hnid (congrArg Ref.nodeId hc)
    rw [List.map_cons, List.flatten_cons, ifaceFold_append,
      ifaceFold_foreign_iface r nid i hown j, ih]
    unfold edgeSrcsOfNode
    rw [List.map_cons, List.flatten_cons, isEmptyAppend]
    by_cases h1 : (edgeSrcsOfIface r nid i).isEmpty = true <;>
      by_cases h2 : ((js'.map (edgeSrcsOfIface r nid)).flatten).isEmpty = true <;>
      simp [h1, h2, List.append_assoc]

/-- A list of foreign nodes, observed at `r`: the slot goes true exactly
when some edge into `r` exists, the sources of those edges are appended
to the predecessors, and nothing else changes. -/
theorem ifaceFold_foreign_nodes (r : Ref) (ns : List FNode)
    (hns : ∀ m ∈ ns, m.id ≠ r.nodeId) :
    ∀ j : Iface, ifaceFold r (flowOpsOf ns) (some j) =
      some { j with
        slot := if (edgeSrcsTo r ns).isEmpty then j.slot else true,
        predecessors := j.predecessors ++ edgeSrcsTo r ns } := by
  induction ns with
  | nil => intro j; simp [ifaceFold, flowOpsOf, edgeSrcsTo]
  | cons m ns' ih =>
    intro j
    rw [show flowOpsOf (m :: ns') = nodeOps m ++ flowOpsOf ns' from by
        unfold flowOpsOf; rw [List.map_cons, List.flatten_cons],
      ifaceFold_append,
      show (nodeOps m : List POp) = (m.interfaces.map (ifaceOps m.id)).flatten from rfl,
      ifaceFold_foreign_node r m.id (hns m (List.mem_cons_self _ _)) m.interfaces j,
      ih (fun m' hm' => hns m' (List.mem_cons_of_mem _ hm'))]
    unfold edgeSrcsTo
    rw [List.map_cons, List.flatten_cons, isEmptyAppend]
    by_cases h1 : (edgeSrcsOfNode r m.id m.interfaces).isEmpty = true <;>
      by_cases h2 : ((ns'.map (fun m => edgeSrcsOfNode r m.id m.interfaces)).flatten).isEmpty
        = true <;>
      simp [h1, h2, List.append_assoc]

/-- The interface's own operation list, observed at its own address:
slot and value replayed, successors appended; the predecessors are not
touched (its edges all leave the node). -/
theorem ifaceFold_own_iface (nid : String) (i : Iface)
    (hsucc : ∀ e ∈ i.successors, e ≠ (⟨nid, i.name⟩ : Ref)) (j : Iface) :
    ifaceFold (⟨nid, i.name⟩ : Ref) (ifaceOps nid i) (some j) =
      some { j with
        slot := if isInputKind i.kind && isValueVariant i.variant then i.slot else true,
        value := if isInputKind i.kind && isValueVariant i.variant && !i.slot
                 then some (i.value.getD "") else j.value,
        successors := j.successors ++ i.successors } := by
  unfold ifaceOps
  rw [ifaceFold_append, ifaceFold_u1ops, ifaceFold_own_edges _ i.successors hsucc]

/-! ### Self-lookup under duplicate-free identifiers -/

theorem find?_self_of_nodup_ids :
    ∀ (l : List FNode), (l.map FNode.id).Nodup → ∀ n ∈ l,
      l.find? (fun m => decide (m.id = n.id)) = some n := by
  intro l
  induction l with
  | nil => intro _ n hn; simp at hn
  | cons a t ih =>
    intro hnd n hn
    simp only [List.map_cons, List.nodup_cons] at hnd
    cases hn with
    | head => simp [List.find?_cons]
    | tail _ hmem =>
      have hne : a.id ≠ n.id := by
        intro hc
        exact hnd.1 (hc ▸ List.mem_map_of_mem FNode.id hmem)
      simp only [List.find?_cons, hne, decide_eq_false, Bool.false_eq_true]
      exact ih hnd.2 n hmem

theorem find?_self_of_nodup_inames :
    ∀ (l : List Iface), (l.map Iface.name).Nodup → ∀ i ∈ l,
      l.find? (fun j => decide (j.name = i.name)) = some i := by
  intro l
  induction l with
  | nil => intro _ i hi; simp at hi
  | cons a t ih =>
    intro hnd i hi
    simp only [List.map_cons, List.nodup_cons] at hnd
    cases hi with
    | head => simp [List.find?_cons]
    | tail _ hmem =>
      have hne : a.name ≠ i.name := by
        intro hc
        exact hnd.1 (hc ▸ List.mem_map_of_mem Iface.name hmem)
      simp only [List.find?_cons, hne, decide_eq_false, Bool.false_eq_true]
      exact ih hnd.2 i hmem

theorem findNode?_of_skel {G f : Flow} (h : G.skel = f.skel) {nid : String} {n : FNode}
    (hf : f.findNode? nid = some n) :
    ∃ m, G.findNode? nid = some m ∧ nodeSkel m = nodeSkel n := by
  have hmap := find?_map_nodeSkel nid G.nodes f.nodes h
  rw [show f.nodes.find? (fun m => decide (m.id = nid)) = some n from hf] at hmap
  cases hG : G.nodes.find? (fun m => decide (m.id = nid)) with
  | none => rw [hG] at hmap; simp at hmap
  | some m =>
    rw [hG] at hmap
    simp only [Option.map_some'] at hmap
    exact ⟨m, hG, Option.some.inj hmap⟩

/-! ### Unpacking the validity predicate -/

theorem validFlow_parts {R : Registry} {f : Flow} (hv : ValidFlow R f = true) :
    (f.nodes.map FNode.id).Nodup ∧
    ∀ n ∈ f.nodes,
      n.id ≠ "" ∧
      (∃ t, R n.typeName = some t ∧ templateMatches t n = true) ∧
      (n.interfaces.map Iface.name).Nodup ∧
      ∀ i ∈ n.interfaces,
        i.successors.Nodup ∧ i.predecessors.Nodup ∧
        (∀ e ∈ i.successors, ∃ d, f.ifaceAt? e = some d ∧
          (⟨n.id, i.name⟩ : Ref) ∈ d.predecessors ∧
          isCompatible ⟨e, d.kind, d.variant⟩ ⟨⟨n.id, i.name⟩, i.kind, i.variant⟩ = true) ∧
        (∀ p ∈ i.predecessors, ∃ ps, f.ifaceAt? p = some ps ∧
          (⟨n.id, i.name⟩ : Ref) ∈ ps.successors) ∧
        ((isInputKind i.kind && isValueVariant i.variant) = true →
          (i.predecessors = [] ∨ i.slot = true) ∧
          (i.slot = true ∨ i.value.isSome = true)) := by
  unfold ValidFlow at hv
  simp only [Bool.and_eq_true, List.all_eq_true, decide_eq_true_eq] at hv
  obtain ⟨⟨hnodup, _⟩, hnodes⟩ := hv
  refine ⟨hnodup, ?_⟩
  intro n hn
  obtain ⟨⟨⟨hne, hreg⟩, hinames⟩, hifaces⟩ := hnodes n hn
  refine ⟨hne, ?_, hinames, ?_⟩
  · cases hR : R n.typeName with
    | none => rw [hR] at hreg; exact absurd hreg (by simp)
    | some t => rw [hR] at hreg; exact ⟨t, rfl, hreg⟩
  · intro i hi
    obtain ⟨⟨⟨⟨hsn, hpn⟩, hsucc⟩, hpred⟩, hiv⟩ := hifaces i hi
    refine ⟨hsn, hpn, ?_, ?_, ?_⟩
    · intro e he
      have h1 := hsucc e he
      cases hd : f.ifaceAt? e with
      | none => rw [hd] at h1; exact absurd h1 (by simp)
      | some d =>
        rw [hd] at h1
        simp only [Bool.and_eq_true, decide_eq_true_eq] at h1
        exact ⟨d, rfl, h1.1, h1.2⟩
    · intro p hp
      have h1 := hpred p hp
      cases hps : f.ifaceAt? p with
      | none => rw [hps] at h1; exact absurd h1 (by simp)
      | some ps =>
        rw [hps] at h1
        simp only [decide_eq_true_eq] at h1
        exact ⟨ps, rfl, h1⟩
    · intro hc
      have hc' : isInputKind i.kind = true ∧ isValueVariant i.variant = true := by
        simpa [Bool.and_eq_true] using hc
      rw [if_pos hc'] at hiv
      simp only [Bool.and_eq_true, Bool.or_eq_true, List.isEmpty_iff] at hiv
      exact ⟨hiv.1, hiv.2⟩

/-! ### The second pass succeeds and equals its operation list

The lookups and the compatibility check of the second pass depend only
on the skeleton, which every operation preserves; the induction below
therefore carries only `fl.skel = f.skel` through the pass. -/

theorem importSucc_ok {f fl : Flow} (hskel : fl.skel = f.skel) {src e : Ref}
    {iSrc d : Iface} (hsrc : f.ifaceAt? src = some iSrc) (hd : f.ifaceAt? e = some d)
    (hcompat : isCompatible ⟨e, d.kind, d.variant⟩ ⟨src, iSrc.kind, iSrc.variant⟩ = true) :
    importSucc fl src e = Except.ok (applyOps fl (edgeOps src e)) := by
  obtain ⟨dj, hdj, _⟩ := ifaceAt?_of_skel hskel hd
  obtain ⟨dnode, hdn, hdi⟩ := lookup_pair_of_ifaceAt? hdj
  have hskel1 : (fl.updateIface e (fun i => { i with slot := true })).skel = f.skel := by
    rw [skel_updateIface fl e (fun i => { i with slot := true }) (fun i => rfl), hskel]
  have haddS : (fl.updateIface e (fun i => { i with slot := true })).addSuccessor src e
      = (applyOps fl (edgeOps src e), none) := by
    unfold Flow.addSuccessor
    rw [infoAt?_of_skel hskel1 hsrc, infoAt?_of_skel hskel1 hd]
    simp only [if_pos hcompat]
    rfl
  unfold importSucc
  simp only [hdn, hdi, haddS]

theorem importSuccs_ok {f : Flow} {src : Ref} {iSrc : Iface}
    (hsrc : f.ifaceAt? src = some iSrc) :
    ∀ (S : List Ref) (fl : Flow), fl.skel = f.skel →
      (∀ e ∈ S, ∃ d, f.ifaceAt? e = some d ∧
        isCompatible ⟨e, d.kind, d.variant⟩ ⟨src, iSrc.kind, iSrc.variant⟩ = true) →
      importSuccs fl src S = Except.ok (applyOps fl ((S.map (edgeOps src)).flatten)) := by
  intro S
  induction S with
  | nil => intro fl _ _; rfl
  | cons e S' ih =>
    intro fl hskel hS
    obtain ⟨d, hd, hcompat⟩ := hS e (List.mem_cons_self _ _)
    have hskel' : (applyOps fl (edgeOps src e)).skel = f.skel := by
      rw [skel_applyOps _ (skelPreserving_edgeOps src e), hskel]
    unfold importSuccs
    rw [importSucc_ok hskel hsrc hd hcompat,
      show (List.map (edgeOps src) (e :: S')).flatten
        = edgeOps src e ++ (S'.map (edgeOps src)).flatten from by
        rw [List.map_cons, List.flatten_cons],
      applyOps_append]
    exact ih (applyOps fl (edgeOps src e)) hskel'
      (fun e' he' => hS e' (List.mem_cons_of_mem _ he'))

theorem importIface_ok {f fl : Flow} (hskel : fl.skel = f.skel) {nid : String} {i : Iface}
    (hi : f.ifaceAt? ⟨nid, i.name⟩ = some i)
    (hS : ∀ e ∈ i.successors, ∃ d, f.ifaceAt? e = some d ∧
      isCompatible ⟨e, d.kind, d.variant⟩ ⟨⟨nid, i.name⟩, i.kind, i.variant⟩ = true) :
    importIface fl nid (exportIface i) = Except.ok (applyOps fl (ifaceOps nid i)) := by
  obtain ⟨j, hj, hjskel⟩ := ifaceAt?_of_skel hskel hi
  obtain ⟨node, hn, hni⟩ := lookup_pair_of_ifaceAt? hj
  have hk : j.kind = i.kind := congrArg (fun q => q.2.1) hjskel
  have hvv : j.variant = i.variant := congrArg (fun q => q.2.2) hjskel
  have hsk : SkelPreserving (u1ops nid i) := skelPreserving_u1ops nid i
  have hskel2 : (applyOps fl (u1ops nid i)).skel = f.skel := by
    rw [skel_applyOps _ hsk, hskel]
  have hrest := importSuccs_ok hi i.successors (applyOps fl (u1ops nid i)) hskel2 hS
  have hn' : fl.findNode? nid = some node := hn
  have hni' : node.findInterface? i.name = some j := hni
  have hsplit : (ifaceOps nid i : List POp) = u1ops nid i
      ++ (i.successors.map (edgeOps ⟨nid, i.name⟩)).flatten := rfl
  unfold importIface
  simp only [exportIface, hn', hni']
  rw [hk, hvv]
  by_cases hc : (isInputKind i.kind && isValueVariant i.variant) = true
  · by_cases hs : i.slot = true
    · rw [show u1ops nid i = [slotTrueOp ⟨nid, i.name⟩, setSlotOp ⟨nid, i.name⟩ i.slot]
          from by simp [u1ops, hc, hs], hs] at hrest
      simp only [hc, hs, if_true, Option.getD_some, Bool.not_true, Bool.and_false,
        Bool.true_and, if_false, Bool.false_eq_true]
      refine hrest.trans ?_
      rw [hsplit, applyOps_append,
        show u1ops nid i = [slotTrueOp ⟨nid, i.name⟩, setSlotOp ⟨nid, i.name⟩ i.slot]
          from by simp [u1ops, hc, hs], hs]
    · have hs' : i.slot = false := by
        cases hb : i.slot with
        | true => exact absurd hb hs
        | false => rfl
      rw [show u1ops nid i = [slotTrueOp ⟨nid, i.name⟩, setSlotOp ⟨nid, i.name⟩ i.slot,
            setValueOp ⟨nid, i.name⟩ (i.value.getD "")]
          from by simp [u1ops, hc, hs]] at hrest
      rw [hs'] at hrest
      simp only [hc, hs', if_true, Option.getD_some, Bool.not_false, Bool.and_true,
        Bool.true_and, if_false, Bool.false_eq_true]
      refine hrest.trans ?_
      rw [hsplit, applyOps_append,
        show u1ops nid i = [slotTrueOp ⟨nid, i.name⟩, setSlotOp ⟨nid, i.name⟩ i.slot,
            setValueOp ⟨nid, i.name⟩ (i.value.getD "")]
          from by simp [u1ops, hc, hs],
        hs']
  · rw [show u1ops nid i = [slotTrueOp ⟨nid, i.name⟩] from by simp [u1ops, hc]] at hrest
    have hc' : (isInputKind i.kind && isValueVariant i.variant) = false := by
      cases hb : (isInputKind i.kind && isValueVariant i.variant) with
      | true => exact absurd hb hc
      | false => rfl
    simp only [hc', if_false, Bool.false_eq_true, Bool.false_and]
    refine hrest.trans ?_
    rw [hsplit, applyOps_append,
      show u1ops nid i = [slotTrueOp ⟨nid, i.name⟩] from by simp [u1ops, hc]]

theorem importIfaces_ok {f : Flow} {nid : String} :
    ∀ (js : List Iface) (fl : Flow), fl.skel = f.skel →
      (∀ i ∈ js, f.ifaceAt? ⟨nid, i.name⟩ = some i ∧
        ∀ e ∈ i.successors, ∃ d, f.ifaceAt? e = some d ∧
          isCompatible ⟨e, d.kind, d.variant⟩ ⟨⟨nid, i.name⟩, i.kind, i.variant⟩ = true) →
      importIfaces fl nid (js.map exportIface) =
        Except.ok (applyOps fl ((js.map (ifaceOps nid)).flatten)) := by
  intro js
  induction js with
  | nil => intro fl _ _; rfl
  | cons i js' ih =>
    intro fl hskel hjs
    obtain ⟨hi, hS⟩ := hjs i (List.mem_cons_self _ _)
    have hskel' : (applyOps fl (ifaceOps nid i)).skel = f.skel := by
      rw [skel_applyOps _ (skelPreserving_ifaceOps nid i), hskel]
    rw [List.map_cons]
    unfold importIfaces
    rw [importIface_ok hskel hi hS,
      show (List.map (ifaceOps nid) (i :: js')).flatten
        = ifaceOps nid i ++ (js'.map (ifaceOps nid)).flatten from by
        rw [List.map_cons, List.flatten_cons],
      applyOps_append]
    exact ih (applyOps fl (ifaceOps nid i)) hskel'
      (fun i' hi' => hjs i' (List.mem_cons_of_mem _ hi'))

theorem importLinksNode_ok {f fl : Flow} (hskel : fl.skel = f.skel) {n : FNode}
    (hmem : f.findNode? n.id = some n)
    (hjs : ∀ i ∈ n.interfaces, f.ifaceAt? ⟨n.id, i.name⟩ = some i ∧
      ∀ e ∈ i.successors, ∃ d, f.ifaceAt? e = some d ∧
        isCompatible ⟨e, d.kind, d.variant⟩ ⟨⟨n.id, i.name⟩, i.kind, i.variant⟩ = true) :
    importLinksNode fl (exportNode n) = Except.ok (applyOps fl (nodeOps n)) := by
  obtain ⟨m, hm, _⟩ := findNode?_of_skel hskel hmem
  unfold importLinksNode
  rw [show (exportNode n).id = n.id from rfl, hm,
    show (exportNode n).interfaces = n.interfaces.map exportIface from rfl]
  exact importIfaces_ok n.interfaces fl hskel hjs

theorem importLinks_ok {f : Flow} :
    ∀ (ns : List FNode) (fl : Flow), fl.skel = f.skel →
      (∀ n ∈ ns, f.findNode? n.id = some n ∧
        ∀ i ∈ n.interfaces, f.ifaceAt? ⟨n.id, i.name⟩ = some i ∧
          ∀ e ∈ i.successors, ∃ d, f.ifaceAt? e = some d ∧
            isCompatible ⟨e, d.kind, d.variant⟩ ⟨⟨n.id, i.name⟩, i.kind, i.variant⟩ = true) →
      importLinks fl (ns.map exportNode) = Except.ok (applyOps fl (flowOpsOf ns)) := by
  intro ns
  induction ns with
  | nil => intro fl _ _; rfl
  | cons n ns' ih =>
    intro fl hskel hns
    obtain ⟨hmem, hjs⟩ := hns n (List.mem_cons_self _ _)
    have hskel' : (applyOps fl (nodeOps n)).skel = f.skel := by
      rw [skel_applyOps _ (skelPreserving_nodeOps n), hskel]
    rw [List.map_cons]
    unfold importLinks
    rw [importLinksNode_ok hskel hmem hjs,
      show flowOpsOf (n :: ns') = nodeOps n ++ flowOpsOf ns' from by
        unfold flowOpsOf; rw [List.map_cons, List.flatten_cons],
      applyOps_append]
    exact ih (applyOps fl (nodeOps n)) hskel'
      (fun n' hn' => hns n' (List.mem_cons_of_mem _ hn'))

/-! ### The first pass: reconstruction of the node list -/

/-- The node the first pass constructs for an exported node whose type is
registered (validity gives a nonempty id, so `buildNode` keeps it). -/
def mkImported (R : Registry) (n : FNode) : FNode :=
  match R n.typeName with
  | some t =>
    { id := n.id, typeName := n.typeName, label := t.label, incidence := 0,
      graphicalprops := n.graphicalprops, interfaces := t.ifaces.map IfaceTemplate.build }
  | none => n

theorem mkImported_id (R : Registry) (n : FNode) : (mkImported R n).id = n.id := by
  unfold mkImported
  cases R n.typeName <;> rfl

theorem mkImported_outer (R : Registry) (n : FNode) :
    nodeOuter (mkImported R n) = nodeOuter n := by
  unfold mkImported
  cases R n.typeName <;> rfl

theorem mkImported_iface_clean {R : Registry} {n : FNode} {t : NodeTemplate}
    (hR : R n.typeName = some t) :
    ∀ j ∈ (mkImported R n).interfaces, j.successors = [] ∧ j.predecessors = [] := by
  unfold mkImported
  rw [hR]
  intro j hj
  obtain ⟨tm, _, rfl⟩ := List.mem_map.1 hj
  exact ⟨rfl, rfl⟩

/-- Template interfaces carry the skeleton the validity predicate pins to
the original interfaces. -/
theorem templateMatches_skel :
    ∀ (ts : List IfaceTemplate) (js : List Iface),
      (decide (ts.length = js.length) && (List.zip ts js).all (fun p =>
        decide (p.1.name = p.2.name) && decide (p.1.kind = p.2.kind)
        && decide (p.1.variant = p.2.variant))) = true →
      ts.map (fun t => ifaceSkel t.build) = js.map ifaceSkel := by
  intro ts
  induction ts with
  | nil =>
    intro js h
    cases js with
    | nil => rfl
    | cons b t => simp at h
  | cons a ts' ih =>
    intro js h
    cases js with
    | nil => simp at h
    | cons b js' =>
      simp only [List.length_cons, List.zip_cons_cons, List.all_cons, Bool.and_eq_true,
        decide_eq_true_eq, Nat.succ.injEq] at h
      obtain ⟨hlen, ⟨⟨hn, hk⟩, hv⟩, hrest⟩ := h
      have htail : ts'.map (fun t => ifaceSkel t.build) = js'.map ifaceSkel := by
        apply ih
        rw [Bool.and_eq_true]
        exact ⟨decide_eq_true hlen, hrest⟩
      rw [List.map_cons, List.map_cons, htail]
      show (a.name, a.kind, a.variant) :: _ = (b.name, b.kind, b.variant) :: _
      rw [hn, hk, hv]

theorem nodeSkel_mkImported {R : Registry} {n : FNode} {t : NodeTemplate}
    (hR : R n.typeName = some t) (hm : templateMatches t n = true) :
    nodeSkel (mkImported R n) = nodeSkel n := by
  unfold mkImported
  rw [hR]
  unfold nodeSkel
  simp only [List.map_map]
  unfold templateMatches at hm
  exact congrArg (fun l => (n.id, l)) (templateMatches_skel t.ifaces n.interfaces hm)

theorem find?_append_none {α : Type} (p : α → Bool) (l₁ l₂ : List α)
    (h₁ : l₁.find? p = none) (h₂ : l₂.find? p = none) : (l₁ ++ l₂).find? p = none := by
  rw [List.find?_eq_none] at h₁ h₂ ⊢
  intro x hx
  rcases List.mem_append.1 hx with h | h
  exacts [h₁ x h, h₂ x h]

/-- The first pass over a list of exported nodes, from any partial flow
they are all fresh for. -/
theorem importNodes_ok {R : Registry} :
    ∀ (ns : List FNode) (fl : Flow),
      (∀ n ∈ ns, n.id ≠ "" ∧ ∃ t, R n.typeName = some t) →
      (∀ n ∈ ns, fl.findNode? n.id = none) →
      (ns.map FNode.id).Nodup →
      ∃ b, importNodes R fl (ns.map exportNode) =
        Except.ok ⟨b, fl.nodes ++ ns.map (mkImported R)⟩ := by
  intro ns
  induction ns with
  | nil =>
    intro fl _ _ _
    refine ⟨fl.modified, ?_⟩
    show Except.ok fl = _
    rw [List.map_nil, List.append_nil]
  | cons n ns' ih =>
    intro fl hreg hfresh hnodup
    obtain ⟨hne, t, hR⟩ := hreg n (List.mem_cons_self _ _)
    have hfind : fl.findNode? n.id = none := hfresh n (List.mem_cons_self _ _)
    have hb : buildNode t n.typeName fl n.id n.graphicalprops = mkImported R n := by
      unfold buildNode mkImported
      rw [hR, if_neg hne]
    have hstep : importNode R fl (exportNode n) =
        Except.ok ⟨true, fl.nodes ++ [mkImported R n]⟩ := by
      unfold importNode
      rw [show (exportNode n).typeName = n.typeName from rfl, hR]
      show (match fl.addNode (buildNode t n.typeName fl (exportNode n).id
        (exportNode n).graphprops) with
        | (fl', none) => Except.ok fl'
        | (_, some e) => Except.error e) = _
      rw [show (exportNode n).id = n.id from rfl,
        show (exportNode n).graphprops = n.graphicalprops from rfl, hb]
      unfold Flow.addNode
      rw [show (mkImported R n).id = n.id from mkImported_id R n, hfind]
    simp only [List.map_cons, List.nodup_cons] at hnodup
    have hfresh' : ∀ m ∈ ns', ({ modified := true, nodes := fl.nodes ++ [mkImported R n] } : Flow).findNode? m.id = none := by
      intro m hm
      apply find?_append_none
      · exact hfresh m (List.mem_cons_of_mem _ hm)
      · have hmn : n.id ≠ m.id := fun hc =>
          hnodup.1 (hc ▸ List.mem_map_of_mem FNode.id hm)
        simp [List.find?_cons, mkImported_id, hmn]
    obtain ⟨b, hrest⟩ := ih { modified := true, nodes := fl.nodes ++ [mkImported R n] }
      (fun m hm => hreg m (List.mem_cons_of_mem _ hm)) hfresh' hnodup.2
    refine ⟨b, ?_⟩
    rw [List.map_cons]
    unfold importNodes
    simp only [hstep]
    rw [hrest]
    simp [List.append_assoc]

/-! ### Decomposition of the operation list around one address -/

theorem flowOpsOf_append (l₁ l₂ : List FNode) :
    flowOpsOf (l₁ ++ l₂) = flowOpsOf l₁ ++ flowOpsOf l₂ := by
  unfold flowOpsOf
  rw [List.map_append, List.flatten_append]

theorem flowOpsOf_cons (m : FNode) (ns : List FNode) :
    flowOpsOf (m :: ns) = nodeOps m ++ flowOpsOf ns := by
  unfold flowOpsOf
  rw [List.map_cons, List.flatten_cons]

theorem nodeOps_decomp (n : FNode) (Q₁ Q₂ : List Iface) (i : Iface)
    (h : n.interfaces = Q₁ ++ i :: Q₂) :
    nodeOps n = (Q₁.map (ifaceOps n.id)).flatten
      ++ (ifaceOps n.id i ++ (Q₂.map (ifaceOps n.id)).flatten) := by
  unfold nodeOps
  rw [h, List.map_append, List.flatten_append, List.map_cons, List.flatten_cons]

theorem nodup_split_ne (l₁ l₂ : List FNode) (n : FNode)
    (h : ((l₁ ++ n :: l₂).map FNode.id).Nodup) :
    (∀ m ∈ l₁, m.id ≠ n.id) ∧ (∀ m ∈ l₂, m.id ≠ n.id) := by
  rw [List.map_append, List.map_cons, List.nodup_append] at h
  obtain ⟨_, hcons, hdisj⟩ := h
  rw [List.nodup_cons] at hcons
  constructor
  · intro m hm hc
    exact hdisj (hc ▸ List.mem_map_of_mem FNode.id hm) (List.mem_cons_self _ _)
  · intro m hm hc
    exact hcons.1 (hc ▸ List.mem_map_of_mem FNode.id hm)

theorem nodup_isplit_ne (l₁ l₂ : List Iface) (i : Iface)
    (h : ((l₁ ++ i :: l₂).map Iface.name).Nodup) :
    (∀ jj ∈ l₁, jj.name ≠ i.name) ∧ (∀ jj ∈ l₂, jj.name ≠ i.name) := by
  rw [List.map_append, List.map_cons, List.nodup_append] at h
  obtain ⟨_, hcons, hdisj⟩ := h
  rw [List.nodup_cons] at hcons
  constructor
  · intro jj hjj hc
    exact hdisj (hc ▸ List.mem_map_of_mem Iface.name hjj) (List.mem_cons_self _ _)
  · intro jj hjj hc
    exact hcons.1 (hc ▸ List.mem_map_of_mem Iface.name hjj)

/-- The generic compatibility check forces the two interfaces onto
distinct nodes (`self.node != interface.node`, flow.py line 328). -/
theorem isCompatible_node_ne {dst src : IfaceInfo} (h : isCompatible dst src = true) :
    dst.ref.nodeId ≠ src.ref.nodeId := by
  have hbase : baseCompatible dst src = true := by
    unfold isCompatible at h
    cases hdv : dst.variant <;> rw [hdv] at h <;>
      (simp only [Bool.and_eq_true] at h; exact h.2)
  unfold baseCompatible at hbase
  simp only [Bool.and_eq_true, decide_eq_true_eq] at hbase
  exact hbase.1.1.2

theorem ifaceFold_own_others (r : Ref) (nid : String) (js : List Iface)
    (h : ∀ jj ∈ js, (⟨nid, jj.name⟩ : Ref) ≠ r ∧ ∀ e ∈ jj.successors, e ≠ r) :
    ∀ oi, ifaceFold r ((js.map (ifaceOps nid)).flatten) oi = oi := by
  induction js with
  | nil => intro oi; rfl
  | cons jj js' ih =>
    intro oi
    rw [List.map_cons, List.flatten_cons, ifaceFold_append,
      ifaceOps_skip r nid jj (h jj (List.mem_cons_self _ _)).1
        (h jj (List.mem_cons_self _ _)).2]
    exact ih (fun x hx => h x (List.mem_cons_of_mem _ hx)) oi

/-! ### Membership in the collected edge sources -/

theorem mem_edgeSrcsOfIface {x r : Ref} {nid : String} {jj : Iface} :
    x ∈ edgeSrcsOfIface r nid jj ↔ (x = ⟨nid, jj.name⟩ ∧ r ∈ jj.successors) := by
  unfold edgeSrcsOfIface
  simp only [List.mem_map, List.mem_filter, decide_eq_true_eq]
  constructor
  · rintro ⟨a, ⟨haS, har⟩, hcx⟩
    exact ⟨hcx.symm, har ▸ haS⟩
  · rintro ⟨hx, hr⟩
    exact ⟨r, ⟨hr, rfl⟩, hx.symm⟩

theorem mem_edgeSrcsOfNode {x r : Ref} {nid : String} {js : List Iface} :
    x ∈ edgeSrcsOfNode r nid js ↔
      ∃ jj ∈ js, x = (⟨nid, jj.name⟩ : Ref) ∧ r ∈ jj.successors := by
  unfold edgeSrcsOfNode
  simp only [List.mem_flatten, List.mem_map]
  constructor
  · rintro ⟨l, ⟨jj, hjj, rfl⟩, hx⟩
    exact ⟨jj, hjj, mem_edgeSrcsOfIface.1 hx⟩
  · rintro ⟨jj, hjj, hx⟩
    exact ⟨edgeSrcsOfIface r nid jj, ⟨jj, hjj, rfl⟩, mem_edgeSrcsOfIface.2 hx⟩

theorem mem_edgeSrcsTo {x r : Ref} {ns : List FNode} :
    x ∈ edgeSrcsTo r ns ↔
      ∃ m ∈ ns, ∃ jj ∈ m.interfaces, x = (⟨m.id, jj.name⟩ : Ref) ∧ r ∈ jj.successors := by
  unfold edgeSrcsTo
  simp only [List.mem_flatten, List.mem_map]
  constructor
  · rintro ⟨l, ⟨m, hm, rfl⟩, hx⟩
    exact ⟨m, hm, mem_edgeSrcsOfNode.1 hx⟩
  · rintro ⟨m, hm, hx⟩
    exact ⟨edgeSrcsOfNode r m.id m.interfaces, ⟨m, hm, rfl⟩, mem_edgeSrcsOfNode.2 hx⟩

/-! ### The interface left at an original address matches the original -/

theorem final_iface_at {R : Registry} {f : Flow} (hv : ValidFlow R f = true)
    {G₀ : Flow} (hskel : G₀.skel = f.skel)
    (hclean : ∀ m ∈ G₀.nodes, ∀ j ∈ m.interfaces, j.successors = [] ∧ j.predecessors = [])
    {n : FNode} (hn : n ∈ f.nodes) {i : Iface} (hi : i ∈ n.interfaces) :
    ∃ jF, (applyOps G₀ (flowOpsOf f.nodes)).ifaceAt? ⟨n.id, i.name⟩ = some jF ∧
      ifaceMatches i jF = true := by
  obtain ⟨hnodup, hnodes⟩ := validFlow_parts hv
  obtain ⟨hne, hreg, hinames, hifs⟩ := hnodes n hn
  have hfind_n : f.findNode? n.id = some n := find?_self_of_nodup_ids f.nodes hnodup n hn
  have hfind_i : n.findInterface? i.name = some i :=
    find?_self_of_nodup_inames n.interfaces hinames i hi
  have hiAt : f.ifaceAt? ⟨n.id, i.name⟩ = some i := by
    unfold Flow.ifaceAt?
    rw [show (⟨n.id, i.name⟩ : Ref).nodeId = n.id from rfl, hfind_n]
    simpa using hfind_i
  obtain ⟨j₀, hj₀, hj₀skel⟩ := ifaceAt?_of_skel hskel hiAt
  obtain ⟨m₀, hm₀n, hm₀i⟩ := lookup_pair_of_ifaceAt? hj₀
  obtain ⟨hj₀succ, hj₀pred⟩ := hclean m₀ (List.mem_of_find?_eq_some hm₀n)
    j₀ (List.mem_of_find?_eq_some hm₀i)
  have hj₀kind : j₀.kind = i.kind := congrArg (fun q => q.2.1) hj₀skel
  have hj₀var : j₀.variant = i.variant := congrArg (fun q => q.2.2) hj₀skel
  have hmain : (applyOps G₀ (flowOpsOf f.nodes)).ifaceAt? ⟨n.id, i.name⟩
      = ifaceFold ⟨n.id, i.name⟩ (flowOpsOf f.nodes) (some j₀) := by
    rw [ifaceAt?_applyOps (flowOpsOf f.nodes)
      (skelPreserving_of_namePreserving _ (skelPreserving_flowOpsOf f.nodes)) _ G₀, hj₀]
  obtain ⟨P₁, P₂, hP⟩ := List.append_of_mem hn
  obtain ⟨Q₁, Q₂, hQ⟩ := List.append_of_mem hi
  obtain ⟨hP₁ne, hP₂ne⟩ := nodup_split_ne P₁ P₂ n (hP ▸ hnodup)
  obtain ⟨hQ₁ne, hQ₂ne⟩ := nodup_isplit_ne Q₁ Q₂ i (hQ ▸ hinames)
  have hsub₁ : ∀ m ∈ P₁, m ∈ f.nodes := by
    intro m hm; rw [hP]; exact List.mem_append.2 (Or.inl hm)
  have hsub₂ : ∀ m ∈ P₂, m ∈ f.nodes := by
    intro m hm; rw [hP]
    exact List.mem_append.2 (Or.inr (List.mem_cons_of_mem _ hm))
  have hQsub : ∀ jj, jj ∈ Q₁ ∨ jj ∈ Q₂ → jj ∈ n.interfaces := by
    intro jj h
    rw [hQ]
    rcases h with h | h
    · exact List.mem_append.2 (Or.inl h)
    · exact List.mem_append.2 (Or.inr (List.mem_cons_of_mem _ h))
  have hsucc_ne : ∀ jj ∈ n.interfaces, ∀ e ∈ jj.successors, e.nodeId ≠ n.id := by
    intro jj hjj e he
    obtain ⟨_, _, hsucc, _, _⟩ := hifs jj hjj
    obtain ⟨d, _, _, hcompat⟩ := hsucc e he
    exact isCompatible_node_ne hcompat
  have hothers : ∀ (Q : List Iface), (∀ jj ∈ Q, jj ∈ n.interfaces ∧ jj.name ≠ i.name) →
      ∀ oi, ifaceFold ⟨n.id, i.name⟩ ((Q.map (ifaceOps n.id)).flatten) oi = oi := by
    intro Q hQmem
    apply ifaceFold_own_others
    intro jj hjj
    refine ⟨?_, ?_⟩
    · intro hc
      exact (hQmem jj hjj).2 (congrArg Ref.ifaceName hc)
    · intro e he hc
      exact hsucc_ne jj (hQmem jj hjj).1 e he (congrArg Ref.nodeId hc)
  have hownsucc : ∀ e ∈ i.successors, e ≠ (⟨n.id, i.name⟩ : Ref) := by
    intro e he hc
    exact hsucc_ne i hi e he (congrArg Ref.nodeId hc)
  have hsplitOps : flowOpsOf f.nodes = flowOpsOf P₁
      ++ (((Q₁.map (ifaceOps n.id)).flatten
        ++ (ifaceOps n.id i ++ (Q₂.map (ifaceOps n.id)).flatten)) ++ flowOpsOf P₂) := by
    rw [hP, flowOpsOf_append, flowOpsOf_cons, nodeOps_decomp n Q₁ Q₂ i hQ,
      List.append_assoc]
  have hcomp : ifaceFold (⟨n.id, i.name⟩ : Ref) (flowOpsOf f.nodes) (some j₀)
      = some { j₀ with
          slot := if (edgeSrcsTo ⟨n.id, i.name⟩ P₂).isEmpty then
              (if isInputKind i.kind && isValueVariant i.variant then i.slot else true)
            else true,
          value := if isInputKind i.kind && isValueVariant i.variant && !i.slot
              then some (i.value.getD "") else j₀.value,
          successors := j₀.successors ++ i.successors,
          predecessors := (j₀.predecessors ++ edgeSrcsTo ⟨n.id, i.name⟩ P₁)
            ++ edgeSrcsTo ⟨n.id, i.name⟩ P₂ } := by
    rw [hsplitOps]
    simp only [ifaceFold_append]
    rw [ifaceFold_foreign_nodes ⟨n.id, i.name⟩ P₁ hP₁ne j₀,
      hothers Q₁ (fun jj hjj => ⟨hQsub jj (Or.inl hjj), hQ₁ne jj hjj⟩),
      ifaceFold_own_iface n.id i hownsucc,
      hothers Q₂ (fun jj hjj => ⟨hQsub jj (Or.inr hjj), hQ₂ne jj hjj⟩),
      ifaceFold_foreign_nodes ⟨n.id, i.name⟩ P₂ hP₂ne]
  have hEmem : ∀ (P : List FNode), (∀ m ∈ P, m ∈ f.nodes) →
      ∀ x ∈ edgeSrcsTo (⟨n.id, i.name⟩ : Ref) P, x ∈ i.predecessors := by
    intro P hPsub x hx
    obtain ⟨m, hm, jj, hjj, hxeq, hr⟩ := mem_edgeSrcsTo.1 hx
    obtain ⟨_, _, hsuccm, _, _⟩ := (hnodes m (hPsub m hm)).2.2.2 jj hjj
    obtain ⟨d, hd, hdpred, _⟩ := hsuccm _ hr
    have hdi : i = d := Option.some.inj (hiAt.symm.trans hd)
    rw [hdi]
    exact hxeq ▸ hdpred
  have hpred_to : ∀ p ∈ i.predecessors,
      p ∈ edgeSrcsTo (⟨n.id, i.name⟩ : Ref) P₁
        ∨ p ∈ edgeSrcsTo (⟨n.id, i.name⟩ : Ref) P₂ := by
    intro p hp
    obtain ⟨_, _, _, hpredc, _⟩ := hifs i hi
    obtain ⟨ps, hps, hr⟩ := hpredc p hp
    obtain ⟨m, hmfind, hmi⟩ := lookup_pair_of_ifaceAt? hps
    have hmmem : m ∈ f.nodes := List.mem_of_find?_eq_some hmfind
    have hmid : m.id = p.nodeId := by
      have := List.find?_some hmfind
      simpa using this
    have hpsmem : ps ∈ m.interfaces := List.mem_of_find?_eq_some hmi
    have hpsname : ps.name = p.ifaceName := by
      have := List.find?_some hmi
      simpa using this
    have hpeq : p = (⟨m.id, ps.name⟩ : Ref) := by
      rw [hmid, hpsname]
    have hmsplit : m ∈ P₁ ∨ m = n ∨ m ∈ P₂ := by
      have hmm : m ∈ P₁ ++ n :: P₂ := hP ▸ hmmem
      rcases List.mem_append.1 hmm with h | h
      · exact Or.inl h
      · rcases List.mem_cons.1 h with h | h
        · exact Or.inr (Or.inl h)
        · exact Or.inr (Or.inr h)
    rcases hmsplit with h | h | h
    · exact Or.inl (mem_edgeSrcsTo.2 ⟨m, h, ps, hpsmem, hpeq, hr⟩)
    · subst h
      obtain ⟨_, _, hsuccm, _, _⟩ := hifs ps hpsmem
      obtain ⟨d, _, _, hcompat⟩ := hsuccm _ hr
      exact (isCompatible_node_ne hcompat rfl).elim
    · exact Or.inr (mem_edgeSrcsTo.2 ⟨m, h, ps, hpsmem, hpeq, hr⟩)
  have hivslot : (isInputKind i.kind && isValueVariant i.variant) = true →
      ¬(edgeSrcsTo (⟨n.id, i.name⟩ : Ref) P₂).isEmpty = true → i.slot = true := by
    intro hc hne2
    obtain ⟨x, hx⟩ : ∃ x, x ∈ edgeSrcsTo (⟨n.id, i.name⟩ : Ref) P₂ := by
      cases hl : edgeSrcsTo (⟨n.id, i.name⟩ : Ref) P₂ with
      | nil => rw [hl] at hne2; exact absurd rfl hne2
      | cons a t => exact ⟨a, hl ▸ List.mem_cons_self a t⟩
    have hxmem : x ∈ i.predecessors := hEmem P₂ hsub₂ x hx
    obtain ⟨_, _, _, _, hiv⟩ := hifs i hi
    rcases (hiv hc).1 with h | h
    · rw [h] at hxmem; simp at hxmem
    · exact h
  have hivval : (isInputKind i.kind && isValueVariant i.variant) = true →
      i.slot = false → some (i.value.getD "") = i.value := by
    intro hc hs
    obtain ⟨_, _, _, _, hiv⟩ := hifs i hi
    rcases (hiv hc).2 with h | h
    · rw [hs] at h; simp at h
    · obtain ⟨v, hvv⟩ := Option.isSome_iff_exists.1 h
      rw [hvv]
      rfl
  refine ⟨_, hmain.trans hcomp, ?_⟩
  unfold ifaceMatches
  simp only [Bool.and_eq_true, decide_eq_true_eq, List.all_eq_true]
  refine ⟨⟨⟨⟨⟨?_, ?_⟩, ?_⟩, ?_⟩, ?_⟩, ?_⟩
  · exact hj₀kind.symm
  · exact hj₀var.symm
  · by_cases hc : (isInputKind i.kind && isValueVariant i.variant) = true
    · have hc' : isInputKind i.kind = true ∧ isValueVariant i.variant = true :=
        Eq.mp (Bool.and_eq_true _ _) hc
      rw [if_pos hc', Bool.and_eq_true]
      constructor
      · rw [decide_eq_true_eq]
        by_cases h2 : (edgeSrcsTo (⟨n.id, i.name⟩ : Ref) P₂).isEmpty = true
        · rw [if_pos h2, if_pos hc']
        · rw [if_neg h2, hivslot hc h2]
      · rw [Bool.or_eq_true]
        by_cases hs : i.slot = true
        · exact Or.inl hs
        · have hs' : i.slot = false := by
            cases hb : i.slot with
            | true => exact absurd hb hs
            | false => rfl
          refine Or.inr ?_
          rw [decide_eq_true_eq, if_pos ⟨hc', by rw [hs']; rfl⟩]
          exact (hivval hc hs').symm
    · rw [if_neg (fun hcc => hc (Eq.mpr (Bool.and_eq_true _ _) hcc))]
  · rw [hj₀succ, List.nil_append]
  · intro p hp
    rw [hj₀pred, List.nil_append]
    rcases hpred_to p hp with h | h
    · exact List.mem_append.2 (Or.inl h)
    · exact List.mem_append.2 (Or.inr h)
  · intro p hp
    rw [hj₀pred, List.nil_append] at hp
    rcases List.mem_append.1 hp with h | h
    · exact hEmem P₁ hsub₁ p h
    · exact hEmem P₂ hsub₂ p h

/-! ### The incidence pass and the final sort touch only `incidence` and
the node order -/

/-- Forget the one field `sortNodesByIncidence` recomputes. -/
def stripInc (n : FNode) : FNode := { n with incidence := 0 }

theorem map_stripInc_updateNodeList (nid : String) (g : FNode → FNode)
    (hg : ∀ n, stripInc (g n) = stripInc n) :
    ∀ l : List FNode, (updateNodeList nid g l).map stripInc = l.map stripInc := by
  intro l
  induction l with
  | nil => rfl
  | cons n rest ih =>
    by_cases h1 : n.id = nid
    · simp [updateNodeList, h1, hg n]
    · simp [updateNodeList, h1, ih]

theorem map_stripInc_setincidence :
    ∀ (fuel : Nat) (fl : Flow) (ids : List String) (lvl : Nat),
      (setincidence fuel fl ids lvl).nodes.map stripInc = fl.nodes.map stripInc := by
  intro fuel
  induction fuel with
  | zero => intro fl ids lvl; rfl
  | succ fuel ih =>
    intro fl ids lvl
    cases ids with
    | nil => rfl
    | cons nid rest =>
      have h1 : (fl.setIncidenceOf nid lvl).nodes.map stripInc = fl.nodes.map stripInc :=
        map_stripInc_updateNodeList nid (fun n => { n with incidence := lvl })
          (fun n => rfl) fl.nodes
      unfold setincidence
      dsimp only
      rw [ih]
      split
      · rw [ih]
        exact h1
      · exact h1

theorem sortNodes_perm (fl : Flow) (fuel : Nat) :
    List.Perm (fl.sortNodesByIncidence fuel).nodes
      (setincidence fuel fl fl.startNodeIds 1).nodes := by
  show List.Perm (List.insertionSort _ (List.insertionSort _ _)) _
  exact (List.perm_insertionSort _ _).trans (List.perm_insertionSort _ _)

theorem find?_map_stripInc (nid : String) :
    ∀ l₁ l₂ : List FNode, l₁.map stripInc = l₂.map stripInc →
      (l₁.find? (fun m => decide (m.id = nid))).map stripInc =
        (l₂.find? (fun m => decide (m.id = nid))).map stripInc := by
  intro l₁
  induction l₁ with
  | nil =>
    intro l₂ h
    cases l₂ with
    | nil => rfl
    | cons b t => simp at h
  | cons a t ih =>
    intro l₂ h
    cases l₂ with
    | nil => simp at h
    | cons b t₂ =>
      simp only [List.map_cons, List.cons.injEq] at h
      have hn : a.id = b.id := by
        have h2 := congrArg FNode.id h.1
        exact h2
      by_cases hx : a.id = nid
      · have hbx : b.id = nid := hn ▸ hx
        simp [List.find?_cons, hx, hbx, h.1]
      · have hbx : ¬ b.id = nid := hn ▸ hx
        simp only [List.find?_cons, hx, hbx, decide_eq_false, Bool.false_eq_true]
        exact ih t₂ h.2

theorem find?_map_nodeOuter (nid : String) :
    ∀ l₁ l₂ : List FNode, l₁.map nodeOuter = l₂.map nodeOuter →
      (l₁.find? (fun m => decide (m.id = nid))).map nodeOuter =
        (l₂.find? (fun m => decide (m.id = nid))).map nodeOuter := by
  intro l₁
  induction l₁ with
  | nil =>
    intro l₂ h
    cases l₂ with
    | nil => rfl
    | cons b t => simp at h
  | cons a t ih =>
    intro l₂ h
    cases l₂ with
    | nil => simp at h
    | cons b t₂ =>
      simp only [List.map_cons, List.cons.injEq] at h
      have hn : a.id = b.id := by
        have h2 := congrArg (fun q : String × String × List (String × Int) => q.1) h.1
        exact h2
      by_cases hx : a.id = nid
      · have hbx : b.id = nid := hn ▸ hx
        simp [List.find?_cons, hx, hbx, h.1]
      · have hbx : ¬ b.id = nid := hn ▸ hx
        simp only [List.find?_cons, hx, hbx, decide_eq_false, Bool.false_eq_true]
        exact ih t₂ h.2

theorem find?_nodes_perm (l l' : List FNode) (hperm : List.Perm l l')
    (hnodup : (l.map FNode.id).Nodup) (nid : String) :
    l.find? (fun m => decide (m.id = nid)) = l'.find? (fun m => decide (m.id = nid)) := by
  cases h : l.find? (fun m => decide (m.id = nid)) with
  | none =>
    rw [List.find?_eq_none] at h
    symm
    rw [List.find?_eq_none]
    intro x hx
    exact h x (hperm.mem_iff.2 hx)
  | some x =>
    have hxl : x ∈ l := List.mem_of_find?_eq_some h
    have hpx := List.find?_some h
    have hsome : (l'.find? (fun m => decide (m.id = nid))).isSome := by
      rw [List.find?_isSome]
      exact ⟨x, hperm.mem_iff.1 hxl, hpx⟩
    obtain ⟨y, hy⟩ := Option.isSome_iff_exists.1 hsome
    have hyl : y ∈ l := hperm.mem_iff.2 (List.mem_of_find?_eq_some hy)
    have hpy := List.find?_some hy
    have hxid : x.id = nid := by simpa using hpx
    have hyid : y.id = nid := by simpa using hpy
    have hxy : x = y := List.inj_on_of_nodup_map hnodup hxl hyl (by rw [hxid, hyid])
    rw [hy, hxy]

theorem map_id_of_map_stripInc {l₁ l₂ : List FNode}
    (h : l₁.map stripInc = l₂.map stripInc) : l₁.map FNode.id = l₂.map FNode.id := by
  calc l₁.map FNode.id = (l₁.map stripInc).map FNode.id := by rw [List.map_map]; rfl
    _ = (l₂.map stripInc).map FNode.id := by rw [h]
    _ = l₂.map FNode.id := by rw [List.map_map]; rfl

theorem map_id_of_map_nodeOuter {l₁ l₂ : List FNode}
    (h : l₁.map nodeOuter = l₂.map nodeOuter) : l₁.map FNode.id = l₂.map FNode.id := by
  calc l₁.map FNode.id = (l₁.map nodeOuter).map (fun q => q.1) := by rw [List.map_map]; rfl
    _ = (l₂.map nodeOuter).map (fun q => q.1) := by rw [h]
    _ = l₂.map FNode.id := by rw [List.map_map]; rfl

theorem map_idType_of_map_stripInc {l₁ l₂ : List FNode}
    (h : l₁.map stripInc = l₂.map stripInc) :
    l₁.map (fun n => (n.id, n.typeName)) = l₂.map (fun n => (n.id, n.typeName)) := by
  calc l₁.map (fun n => (n.id, n.typeName))
      = (l₁.map stripInc).map (fun n => (n.id, n.typeName)) := by rw [List.map_map]; rfl
    _ = (l₂.map stripInc).map (fun n => (n.id, n.typeName)) := by rw [h]
    _ = l₂.map (fun n => (n.id, n.typeName)) := by rw [List.map_map]; rfl

theorem map_idType_of_map_nodeOuter {l₁ l₂ : List FNode}
    (h : l₁.map nodeOuter = l₂.map nodeOuter) :
    l₁.map (fun n => (n.id, n.typeName)) = l₂.map (fun n => (n.id, n.typeName)) := by
  calc l₁.map (fun n => (n.id, n.typeName))
      = (l₁.map nodeOuter).map (fun q => (q.1, q.2.1)) := by rw [List.map_map]; rfl
    _ = (l₂.map nodeOuter).map (fun q => (q.1, q.2.1)) := by rw [h]
    _ = l₂.map (fun n => (n.id, n.typeName)) := by rw [List.map_map]; rfl

/-! ### Assembly: the sorted import result matches the original flow -/

theorem roundTrip_sorted {R : Registry} {f : Flow} (hv : ValidFlow R f = true)
    {G₀ : Flow} (hskel : G₀.skel = f.skel)
    (houter : G₀.nodes.map nodeOuter = f.nodes.map nodeOuter)
    (hclean : ∀ m ∈ G₀.nodes, ∀ j ∈ m.interfaces, j.successors = [] ∧ j.predecessors = [])
    (fuel : Nat) :
    roundTripMatches f ((applyOps G₀ (flowOpsOf f.nodes)).sortNodesByIncidence fuel)
      = true := by
  obtain ⟨hnodup, hnodes⟩ := validFlow_parts hv
  have houterG : (applyOps G₀ (flowOpsOf f.nodes)).nodes.map nodeOuter
      = f.nodes.map nodeOuter := (nodeOuter_applyOps (flowOpsOf f.nodes) G₀).trans houter
  have hstrip : (setincidence fuel (applyOps G₀ (flowOpsOf f.nodes))
        (applyOps G₀ (flowOpsOf f.nodes)).startNodeIds 1).nodes.map stripInc
      = (applyOps G₀ (flowOpsOf f.nodes)).nodes.map stripInc :=
    map_stripInc_setincidence fuel _ _ 1
  have hidsGs : (setincidence fuel (applyOps G₀ (flowOpsOf f.nodes))
        (applyOps G₀ (flowOpsOf f.nodes)).startNodeIds 1).nodes.map FNode.id
      = f.nodes.map FNode.id :=
    (map_id_of_map_stripInc hstrip).trans (map_id_of_map_nodeOuter houterG)
  have hnodupGs : ((setincidence fuel (applyOps G₀ (flowOpsOf f.nodes))
        (applyOps G₀ (flowOpsOf f.nodes)).startNodeIds 1).nodes.map FNode.id).Nodup := by
    rw [hidsGs]
    exact hnodup
  have hperm := sortNodes_perm (applyOps G₀ (flowOpsOf f.nodes)) fuel
  unfold roundTripMatches
  rw [Bool.and_eq_true]
  constructor
  · rw [decide_eq_true_eq]
    have h1 := hperm.map (fun n : FNode => (n.id, n.typeName))
    rw [map_idType_of_map_stripInc hstrip, map_idType_of_map_nodeOuter houterG] at h1
    exact h1.symm
  · rw [List.all_eq_true]
    intro n hn
    have hfn : f.findNode? n.id = some n := find?_self_of_nodup_ids f.nodes hnodup n hn
    have hfmap : ((applyOps G₀ (flowOpsOf f.nodes)).findNode? n.id).map nodeOuter
        = (f.findNode? n.id).map nodeOuter :=
      find?_map_nodeOuter n.id _ _ houterG
    rw [hfn, Option.map_some'] at hfmap
    obtain ⟨mG, hmG⟩ : ∃ mG, (applyOps G₀ (flowOpsOf f.nodes)).findNode? n.id = some mG := by
      cases hx : (applyOps G₀ (flowOpsOf f.nodes)).findNode? n.id with
      | none => rw [hx] at hfmap; simp at hfmap
      | some mG => exact ⟨mG, rfl⟩
    rw [hmG, Option.map_some'] at hfmap
    have hmGouter : nodeOuter mG = nodeOuter n := Option.some.inj hfmap
    have hsmap := find?_map_stripInc n.id _ _ hstrip
    rw [show ((applyOps G₀ (flowOpsOf f.nodes)).nodes.find?
        (fun m => decide (m.id = n.id))) = some mG from hmG, Option.map_some'] at hsmap
    obtain ⟨mS, hmS⟩ : ∃ mS, (setincidence fuel (applyOps G₀ (flowOpsOf f.nodes))
        (applyOps G₀ (flowOpsOf f.nodes)).startNodeIds 1).nodes.find?
          (fun m => decide (m.id = n.id)) = some mS := by
      cases hx : (setincidence fuel (applyOps G₀ (flowOpsOf f.nodes))
          (applyOps G₀ (flowOpsOf f.nodes)).startNodeIds 1).nodes.find?
            (fun m => decide (m.id = n.id)) with
      | none => rw [hx] at hsmap; simp at hsmap
      | some mS => exact ⟨mS, rfl⟩
    rw [hmS, Option.map_some'] at hsmap
    have hmSstrip : stripInc mS = stripInc mG := Option.some.inj hsmap
    have hgGs : ((applyOps G₀ (flowOpsOf f.nodes)).sortNodesByIncidence fuel).findNode? n.id
        = some mS := by
      have h2 := find?_nodes_perm _ _ hperm.symm hnodupGs n.id
      show ((applyOps G₀ (flowOpsOf f.nodes)).sortNodesByIncidence fuel).nodes.find?
        (fun m => decide (m.id = n.id)) = some mS
      rw [← h2]
      exact hmS
    have hty : mS.typeName = n.typeName := by
      have e1 : mS.typeName = mG.typeName := by
        have h2 := congrArg FNode.typeName hmSstrip
        exact h2
      have e2 : mG.typeName = n.typeName := by
        have h2 := congrArg (fun q : String × String × List (String × Int) => q.2.1) hmGouter
        exact h2
      exact e1.trans e2
    have hgp : mS.graphicalprops = n.graphicalprops := by
      have e1 : mS.graphicalprops = mG.graphicalprops := by
        have h2 := congrArg FNode.graphicalprops hmSstrip
        exact h2
      have e2 : mG.graphicalprops = n.graphicalprops := by
        have h2 := congrArg (fun q : String × String × List (String × Int) => q.2.2) hmGouter
        exact h2
      exact e1.trans e2
    have hifc : mS.interfaces = mG.interfaces := by
      have h2 := congrArg FNode.interfaces hmSstrip
      exact h2
    simp only [hgGs]
    unfold nodeMatches
    simp only [Bool.and_eq_true, decide_eq_true_eq, List.all_eq_true]
    refine ⟨⟨hty.symm, hgp.symm⟩, ?_⟩
    intro i hi
    obtain ⟨jF, hjF, hjFm⟩ := final_iface_at hv hskel hclean hn hi
    have hmGi : mG.findInterface? i.name = some jF := by
      unfold Flow.ifaceAt? at hjF
      rw [show (⟨n.id, i.name⟩ : Ref).nodeId = n.id from rfl, hmG] at hjF
      simpa using hjF
    have hmSi : mS.findInterface? i.name = some jF := by
      show mS.interfaces.find? (fun j => decide (j.name = i.name)) = some jF
      rw [hifc]
      exact hmGi
    simp only [hmSi]
    exact hjFm

/-- **C1** — Export/import round trip (flow.py lines 190-243, 245-287):
for every valid flow `f` built from registered node types (`ValidFlow`:
nonempty duplicate-free node ids, acyclic node graph, every node's type
registered with interfaces of the declared names/kinds/variants,
duplicate-free interface names and edge lists with symmetric compatible
endpoints, and connected or literal-valued input value interfaces),
`importXml R f.exportXml` succeeds and returns a flow with the same
(id, type) node multiset and, per node id: the same type name, the same
graphical properties, and per interface name the same kind and variant,
the same slot flag and — for unbound slots — the same literal value on
input value interfaces, the same successor list, and the same
predecessor set. -/
theorem importXml_exportXml_roundtrip (R : Registry) (f : Flow) (fuel : Nat)
    (hv : ValidFlow R f = true) :
    ∃ g, importXml R f.exportXml fuel = Except.ok g ∧ roundTripMatches f g = true := by
  obtain ⟨hnodup, hnodes⟩ := validFlow_parts hv
  have hreg : ∀ n ∈ f.nodes, n.id ≠ "" ∧ ∃ t, R n.typeName = some t := by
    intro n hn
    obtain ⟨hne, ⟨t, hR, _⟩, _, _⟩ := hnodes n hn
    exact ⟨hne, t, hR⟩
  obtain ⟨b, hP1⟩ := importNodes_ok f.nodes { modified := false, nodes := [] } hreg
    (fun n _ => rfl) hnodup
  have hP1' : importNodes R { modified := false, nodes := [] } (f.nodes.map exportNode)
      = Except.ok ⟨b, f.nodes.map (mkImported R)⟩ := hP1
  have hskelG₀ : (⟨b, f.nodes.map (mkImported R)⟩ : Flow).skel = f.skel := by
    show (f.nodes.map (mkImported R)).map nodeSkel = f.nodes.map nodeSkel
    rw [List.map_map]
    apply List.map_congr_left
    intro n hn
    obtain ⟨_, ⟨t, hR, hm⟩, _, _⟩ := hnodes n hn
    exact nodeSkel_mkImported hR hm
  have houterG₀ : (⟨b, f.nodes.map (mkImported R)⟩ : Flow).nodes.map nodeOuter
      = f.nodes.map nodeOuter := by
    show (f.nodes.map (mkImported R)).map nodeOuter = f.nodes.map nodeOuter
    rw [List.map_map]
    apply List.map_congr_left
    intro n _
    exact mkImported_outer R n
  have hcleanG₀ : ∀ m ∈ (⟨b, f.nodes.map (mkImported R)⟩ : Flow).nodes,
      ∀ j ∈ m.interfaces, j.successors = [] ∧ j.predecessors = [] := by
    intro m hm
    obtain ⟨n, hn, rfl⟩ := List.mem_map.1 hm
    obtain ⟨_, ⟨t, hR, _⟩, _, _⟩ := hnodes n hn
    exact mkImported_iface_clean hR
  have hlinks : ∀ n ∈ f.nodes, f.findNode? n.id = some n ∧
      ∀ i ∈ n.interfaces, f.ifaceAt? ⟨n.id, i.name⟩ = some i ∧
        ∀ e ∈ i.successors, ∃ d, f.ifaceAt? e = some d ∧
          isCompatible ⟨e, d.kind, d.variant⟩ ⟨⟨n.id, i.name⟩, i.kind, i.variant⟩ = true := by
    intro n hn
    obtain ⟨hne, _, hinames, hifs⟩ := hnodes n hn
    have hfn : f.findNode? n.id = some n := find?_self_of_nodup_ids f.nodes hnodup n hn
    refine ⟨hfn, ?_⟩
    intro i hi
    have hfi : n.findInterface? i.name = some i :=
      find?_self_of_nodup_inames n.interfaces hinames i hi
    refine ⟨?_, ?_⟩
    · unfold Flow.ifaceAt?
      rw [show (⟨n.id, i.name⟩ : Ref).nodeId = n.id from rfl, hfn]
      simpa using hfi
    · intro e he
      obtain ⟨_, _, hsucc, _, _⟩ := hifs i hi
      obtain ⟨d, hd, _, hcompat⟩ := hsucc e he
      exact ⟨d, hd, hcompat⟩
  have hP2 := importLinks_ok f.nodes (⟨b, f.nodes.map (mkImported R)⟩ : Flow) hskelG₀ hlinks
  refine ⟨_, ?_, roundTrip_sorted hv hskelG₀ houterG₀ hcleanG₀ fuel⟩
  unfold importXml
  rw [show f.exportXml = f.nodes.map exportNode from rfl]
  simp only [hP1', hP2]

/-! ### A concrete valid flow for the round-trip claim -/

def wRegC1 : Registry := fun s =>
  if s = "flow.Src" then some ⟨"Src", [⟨"out", Kind.output, Variant.value, true, none⟩]⟩
  else if s = "flow.Dst" then
    some ⟨"Dst", [⟨"in", Kind.parameter, Variant.value, false, some ""⟩,
                  ⟨"lit", Kind.parameter, Variant.value, false, some ""⟩]⟩
  else none

def wNodeC1A : FNode :=
  { id := "A", typeName := "flow.Src", label := "Src", incidence := 0,
    graphicalprops := [("x", 10), ("y", -3)],
    interfaces := [{ name := "out", kind := Kind.output, variant := Variant.value,
                     slot := true, value := none,
                     successors := [⟨"B", "in"⟩], predecessors := [] }] }

def wNodeC1B : FNode :=
  { id := "B", typeName := "flow.Dst", label := "Dst", incidence := 0,
    graphicalprops := [],
    interfaces := [{ name := "in", kind := Kind.parameter, variant := Variant.value,
                     slot := true, value := none,
                     successors := [], predecessors := [⟨"A", "out"⟩] },
                   { name := "lit", kind := Kind.parameter, variant := Variant.value,
                     slot := false, value := some "hello",
                     successors := [], predecessors := [] }] }

def wFlowC1 : Flow := { modified := false, nodes := [wNodeC1B, wNodeC1A] }

/-- Witness for the round-trip theorem: a two-node flow with one edge, a
literal value and graphical properties satisfies the validity hypothesis,
so its round trip succeeds and matches. -/
theorem importXml_exportXml_roundtrip_witness :
    ValidFlow wRegC1 wFlowC1 = true ∧
      ∃ g, importXml wRegC1 wFlowC1.exportXml 8 = Except.ok g ∧
        roundTripMatches wFlowC1 g = true :=
  ⟨by decide, importXml_exportXml_roundtrip wRegC1 wFlowC1 8 (by decide)⟩

end Florun
